import Mathlib

/-!
# stake-statistics: ledger aggregation and currency conversion (`src/index.js`)

A shallow embedding of the computational core of the bot:

* `fetchCryptoRatesToEUR` (lines 49-98), the rate provider;
* `calculateTotal` (lines 100-132) together with `getFilePath` (lines 168-171);
* the registry effects of `handleFileUpload` (lines 184-187) and of the
  `clear` command (lines 267-280);
* the arithmetic of the `total` command (lines 288-314) and of the
  `show_detailed_breakdown` follow-up (lines 345-359).

JavaScript numbers are IEEE-754 binary64 values.  They are embedded exactly:
a finite double is its sign and its magnitude counted in units of `2^-1074`
(the least subnormal), so every finite double is a natural number of units and
all arithmetic is integer arithmetic followed by round-to-nearest-even.

Plain objects (`totals`, `rates`, `idsMap`, `result`) are association lists of
their own properties, kept in creation order; a property read that misses
falls through to `Object.prototype` (`isInherited`).  Of the inherited names
only `constructor` and `__proto__` are all-lowercase.  An enumeration
(`for ... in`, `Object.entries`) visits the array-index keys (`"0"`, `"42"`)
first, in ascending order, and then the other keys in creation order
(`enumerationOrder`).

`String.prototype.toLowerCase` is a parameter (`toLowerCase`) of every
definition that uses it; `asciiLower` instantiates it for ASCII input.
-/

namespace StakeStats

/-! ## JavaScript numbers -/

/-- A JavaScript Number.  `fin neg k` is the finite double of sign `neg` and
magnitude `k * 2^-1074`; `fin true 0` is negative zero. -/
inductive JSNum where
  | nan
  | inf (neg : Bool)
  | fin (neg : Bool) (k : Nat)
  deriving DecidableEq, Repr

/-- The number of units in `1.0`, that is `2^1074`. -/
def unitsPerOne : Nat := 1 <<< 1074

/-- The magnitude `2^1024` in units: a rounded magnitude that reaches it overflows. -/
def overflowUnits : Nat := 1 <<< 2098

/-- Bit length of `n` by binary search, exact for `n < 2^(2^l)`. -/
def bitLenAux : Nat → Nat → Nat
  | 0, n => if n = 0 then 0 else 1
  | l + 1, n =>
    if n >>> (1 <<< l) = 0 then bitLenAux l n
    else (1 <<< l) + bitLenAux l (n >>> (1 <<< l))

/-- Bit length of `n`, exact for `n < 2^4096` (it is only applied below `2^2098`). -/
def bitLen (n : Nat) : Nat := bitLenAux 12 n

/-- The integer nearest to `num / den`, ties to the even one. -/
def roundHalfEven (num den : Nat) : Nat :=
  let q := num / den
  let r := num % den
  if 2 * r < den then q
  else if den < 2 * r then q + 1
  else if q % 2 = 0 then q else q + 1

/-- Round the non-negative rational `num / den` (in units of `2^-1074`) to the
nearest double magnitude, ties to even; `none` is overflow to infinity.
Magnitudes below `2^53` units are all representable; above, a double keeps 53
significant bits. -/
def roundMag (num den : Nat) : Option Nat :=
  if den <<< 2098 ≤ num then none
  else
    let s := bitLen (num / den) - 53
    let k := roundHalfEven num (den <<< s) <<< s
    if overflowUnits ≤ k then none else some k

/-- The double nearest to `± num / den` units. -/
def JSNum.ofMag (neg : Bool) (num den : Nat) : JSNum :=
  match roundMag num den with
  | none => .inf neg
  | some k => .fin neg k

/-- Positive zero, the literal `0`. -/
def JSNum.zero : JSNum := .fin false 0

/-- `isNaN(x)` for a number `x`. -/
def JSNum.isNaN : JSNum → Bool
  | .nan => true
  | _ => false

/-- `Math.abs(x)`. -/
def JSNum.abs : JSNum → JSNum
  | .nan => .nan
  | .inf _ => .inf false
  | .fin _ k => .fin false k

/-- Unary minus. -/
def JSNum.neg : JSNum → JSNum
  | .nan => .nan
  | .inf s => .inf (!s)
  | .fin s k => .fin (!s) k

/-- Number addition `x + y`. -/
def JSNum.add : JSNum → JSNum → JSNum
  | .nan, _ => .nan
  | _, .nan => .nan
  | .inf s, .inf t => if s = t then .inf s else .nan
  | .inf s, .fin _ _ => .inf s
  | .fin _ _, .inf t => .inf t
  | .fin s a, .fin t b =>
    if s = t then .ofMag s (a + b) 1
    else if a = b then .fin false 0
    else if b < a then .ofMag s (a - b) 1
    else .ofMag t (b - a) 1

/-- Number subtraction `x - y`. -/
def JSNum.sub (x y : JSNum) : JSNum := x.add y.neg

/-- Number multiplication `x * y`. -/
def JSNum.mul : JSNum → JSNum → JSNum
  | .nan, _ => .nan
  | _, .nan => .nan
  | .inf s, .inf t => .inf (xor s t)
  | .inf s, .fin t b => if b = 0 then .nan else .inf (xor s t)
  | .fin s a, .inf t => if a = 0 then .nan else .inf (xor s t)
  | .fin s a, .fin t b => .ofMag (xor s t) (a * b) unitsPerOne

/-- ToBoolean of a number: false for `+0`, `-0` and `NaN`. -/
def JSNum.truthy : JSNum → Bool
  | .nan => false
  | .inf _ => true
  | .fin _ k => k != 0

/-- The comparison `x >= 0`. -/
def JSNum.geZero : JSNum → Bool
  | .nan => false
  | .inf s => !s
  | .fin s k => k == 0 || !s

/-! ## Number to string: `Number.prototype.toFixed(2)` -/

/-- The decimal digits of `n`, padded on the left with zeros to at least three
characters, with a point before the last two: `n = 7` gives `0.07`. -/
def twoDecimals (n : Nat) : String :=
  let ds := (Nat.toDigits 10 n)
  let ds := List.replicate (3 - ds.length) '0' ++ ds
  String.mk (ds.take (ds.length - 2) ++ '.' :: ds.drop (ds.length - 2))

/-- Half-up rounding of the magnitude `k` units to hundredths: the integer `n`
for which `n / 100 - x` is closest to zero, the larger one on a tie. -/
def hundredths (k : Nat) : Nat := (200 * k + unitsPerOne) / (2 * unitsPerOne)

/-- Number::toString looks for integers `n`, `k`, `s` with `10^(k-1) <= s < 10^k`
such that `s * 10^(n-k)` converts to the double `x`, `k` least.  For the
integer-valued `x` of `d` digits and a given `k` this lists the pair `(s, n)`
that qualifies, the one nearer to `x` if two do: `x / 10^(d-k)` rounded down,
or rounded up (which is `10^(k-1)` with `n = d + 1` when it reaches `10^k`). -/
def shortestCandidates (x d k : Nat) : List (Nat × Nat) :=
  let p := 10 ^ (d - k)
  let lo := x / p
  let fits := fun s => decide (roundMag (s * p * unitsPerOne) 1 = some (x * unitsPerOne))
  let up := if lo + 1 = 10 ^ k then (10 ^ (k - 1), d + 1) else (lo + 1, d)
  if fits lo && fits (lo + 1) then
    (if 2 * (x % p) ≤ p then [(lo, d)] else [up])
  else if fits lo then [(lo, d)]
  else if fits (lo + 1) then [up]
  else []

/-- Number::toString for an integer-valued double `x >= 10^21` (a magnitude of
`x` ones): the shortest digit string that converts back to `x`, in exponent
form `d.ddde+N`. -/
def bigToString (x : Nat) : String :=
  let d := (Nat.toDigits 10 x).length
  let found := (List.range 17).findSome? fun i => (shortestCandidates x d (i + 1)).head?
  let (s, n) := found.getD (x, d)
  let mant := match Nat.toDigits 10 s with
    | [] => []
    | [c] => [c]
    | c :: rest => c :: '.' :: rest
  String.mk (mant ++ 'e' :: '+' :: Nat.toDigits 10 (n - 1))

/-- `x.toFixed(2)` (ECMAScript Number.prototype.toFixed with two fraction
digits): non-finite values print as `NaN`, `Infinity`, `-Infinity`; a negative
value prints a minus sign and its magnitude; a magnitude of at least `10^21`
prints as Number::toString does; otherwise the magnitude is rounded half-up to
hundredths. -/
def JSNum.toFixed2 : JSNum → String
  | .nan => "NaN"
  | .inf false => "Infinity"
  | .inf true => "-Infinity"
  | .fin neg k =>
    let sign := if neg && k != 0 then "-" else ""
    if 10 ^ 21 * unitsPerOne ≤ k then sign ++ bigToString (k / unitsPerOne)
    else sign ++ twoDecimals (hundredths k)

/-! ## String to number: `parseFloat` -/

/-- StrWhiteSpaceChar: WhiteSpace and LineTerminator code points. -/
def isStrWhiteSpace (c : Char) : Bool :=
  let n := c.toNat
  n == 0x09 || n == 0x0A || n == 0x0B || n == 0x0C || n == 0x0D || n == 0x20
    || n == 0xA0 || n == 0x1680 || (0x2000 ≤ n && n ≤ 0x200A) || n == 0x2028
    || n == 0x2029 || n == 0x202F || n == 0x205F || n == 0x3000 || n == 0xFEFF

/-- The value of a string of decimal digits. -/
def digitsValue (ds : List Char) : Nat :=
  ds.foldl (fun acc c => acc * 10 + (c.toNat - 48)) 0

/-- The value of an ExponentPart at the head of the input, `0` when the input
does not start with one (`e` or `E`, an optional sign, at least one digit). -/
def exponentPart : List Char → Int
  | [] => 0
  | c :: rest =>
    if c = 'e' ∨ c = 'E' then
      match rest with
      | '+' :: ds => (digitsValue (ds.takeWhile Char.isDigit) : Int)
      | '-' :: ds => - (digitsValue (ds.takeWhile Char.isDigit) : Int)
      | ds => (digitsValue (ds.takeWhile Char.isDigit) : Int)
    else 0

/-- The double nearest to `± digits * 10^(exp - fracLen)`.  Values of at least
`10^309` overflow and values below `10^-324` round to zero, whatever the
remaining digits are, so the powers of ten computed stay small. -/
def decimalToNum (neg : Bool) (ds : List Char) (fracLen : Nat) (exp : Int) : JSNum :=
  let sig := ds.dropWhile (· == '0')
  if sig.isEmpty then .fin neg 0
  else
    let m := digitsValue sig
    let e : Int := exp - fracLen
    let lead : Int := (sig.length : Int) - 1 + e
    if 309 ≤ lead then .inf neg
    else if lead ≤ -325 then .fin neg 0
    else if 0 ≤ e then .ofMag neg (m * 10 ^ e.toNat * unitsPerOne) 1
    else .ofMag neg (m * unitsPerOne) (10 ^ (-e).toNat)

/-- StrUnsignedDecimalLiteral: the longest prefix of the input that is
`Infinity`, `digits [. [digits]] [exponent]` or `. digits [exponent]`; `NaN`
when there is none. -/
def unsignedLiteral (neg : Bool) (cs : List Char) : JSNum :=
  if "Infinity".toList.isPrefixOf cs then .inf neg
  else
    let ip := cs.takeWhile Char.isDigit
    let rest := cs.dropWhile Char.isDigit
    match rest with
    | '.' :: more =>
      let fp := more.takeWhile Char.isDigit
      if ip.isEmpty && fp.isEmpty then .nan
      else decimalToNum neg (ip ++ fp) fp.length (exponentPart (more.dropWhile Char.isDigit))
    | _ =>
      if ip.isEmpty then .nan
      else decimalToNum neg ip 0 (exponentPart rest)

/-- `parseFloat(s)` for a string `s`: leading white space is skipped, then the
longest prefix that is a StrDecimalLiteral is converted; `NaN` if there is none. -/
def parseFloatStr (s : String) : JSNum :=
  match s.toList.dropWhile isStrWhiteSpace with
  | '+' :: cs => unsignedLiteral false cs
  | '-' :: cs => unsignedLiteral true cs
  | cs => unsignedLiteral false cs

/-- `parseFloat(v)` for a cell `v` of a parsed CSV row: a string, or `undefined`
when the row has no such column (`ToString(undefined)` has no numeric prefix). -/
def parseFloat : Option String → JSNum
  | none => .nan
  | some s => parseFloatStr s

/-! ## Plain objects and the `Map` registry -/

/-- An own property read `o[k]`: the value stored under `k`, if any. -/
def getOwn {α : Type} : List (String × α) → String → Option α
  | [], _ => none
  | (k', v) :: rest, k => if k' = k then some v else getOwn rest k

/-- The assignment `o[k] = v`: overwrite the own property in place, or add it last. -/
def setProp {α : Type} : List (String × α) → String → α → List (String × α)
  | [], k, v => [(k, v)]
  | (k', v') :: rest, k, v =>
    if k' = k then (k, v) :: rest else (k', v') :: setProp rest k v

/-- The own keys of an object, in the order of the list. -/
def ownKeys {α : Type} (o : List (String × α)) : List String := o.map Prod.fst

/-- The numeric value of a key that is an array index: a canonical numeric
string (digits only, no leading zero except `0` itself) below `2^32 - 1`. -/
def arrayIndex (k : String) : Option Nat :=
  let cs := k.toList
  if cs.isEmpty || !cs.all Char.isDigit then none
  else if cs.head? == some '0' && cs.length != 1 then none
  else if digitsValue cs < 4294967295 then some (digitsValue cs) else none

/-- The order in which `for ... in` and `Object.entries` visit the own
properties of an object: array-index keys in ascending numeric order, then
the other keys in creation order. -/
def enumerationOrder {α : Type} (o : List (String × α)) : List (String × α) :=
  (o.filter fun p => (arrayIndex p.1).isSome).insertionSort
      (fun p q => (arrayIndex p.1).getD 0 ≤ (arrayIndex q.1).getD 0) ++
    o.filter fun p => (arrayIndex p.1).isNone

/-- The function-valued properties every object literal inherits from
`Object.prototype` (Node.js): a read `o[k]` of a missing key `k` of this list
yields a function, which is truthy. -/
def inheritedFunctions : List String :=
  ["constructor", "hasOwnProperty", "isPrototypeOf", "propertyIsEnumerable",
   "toLocaleString", "toString", "valueOf", "__defineGetter__", "__defineSetter__",
   "__lookupGetter__", "__lookupSetter__"]

/-- The inherited accessor `__proto__`: a read yields `Object.prototype`
(truthy), and a write of a primitive value is ignored. -/
def protoKey : String := "__proto__"

/-- A key that a read on an object literal finds on `Object.prototype`. -/
def isInherited (k : String) : Bool := k == protoKey || inheritedFunctions.contains k

/-- `Map.prototype.get`. -/
def mapGet {α : Type} : List (String × α) → String → Option α
  | [], _ => none
  | (k', v) :: rest, k => if k' = k then some v else mapGet rest k

/-- `Map.prototype.delete`. -/
def mapDelete {α : Type} (m : List (String × α)) (k : String) : List (String × α) :=
  m.filter fun p => p.1 ≠ k

/-- `Map.prototype.set`. -/
def mapSet {α : Type} (m : List (String × α)) (k : String) (v : α) : List (String × α) :=
  if (mapGet m k).isSome then m.map fun p => if p.1 = k then (k, v) else p
  else m ++ [(k, v)]

/-! ## The rate provider: `fetchCryptoRatesToEUR` (lines 49-98) -/

/-- The table `idsMap` (lines 50-73). -/
def idsMap : List (String × String) :=
  [("btc", "bitcoin"), ("eth", "ethereum"), ("ltc", "litecoin"), ("usdt", "tether"),
   ("sol", "solana"), ("doge", "dogecoin"), ("bch", "bitcoin-cash"), ("xrp", "ripple"),
   ("trx", "tron"), ("eos", "eos"), ("bnb", "binancecoin"), ("usdc", "usd-coin"),
   ("ape", "apecoin"), ("busd", "binance-usd"), ("dai", "dai"),
   ("cro", "crypto-com-chain"), ("sand", "the-sandbox"), ("link", "chainlink"),
   ("shib", "shiba-inu"), ("uni", "uniswap"), ("pol", "polkadot"),
   ("trump", "official-trump")]

/-- One entry `response.data[id]` of a successful response: an object whose
`eur` field is a number, or is missing. -/
structure RateEntry where
  eur : Option JSNum
  deriving DecidableEq, Repr

/-- The body `response.data` of a successful response: identifier to entry. -/
abbrev RateResponse := List (String × RateEntry)

/-- The external price service: what `axios.get` yields for the request whose
`ids` query parameter is the given string; `none` when the request fails
(network error, error status, unusable body), which the `catch` absorbs. -/
abbrev RateService := String → Option RateResponse

/-- The object `rates` returned by `fetchCryptoRatesToEUR`: symbol to the
`eur` field of its entry (`none` is `undefined`). -/
abbrev Rates := List (String × Option JSNum)

/-- What `idsMap[k]` contributes to `ids` after `.filter(Boolean)`: the
identifier of a table symbol; for a key found on `Object.prototype` the
inherited value, which is truthy and is later joined as its string form;
nothing for any other key (`undefined` is filtered out). -/
def idLookup (k : String) : Option String :=
  match getOwn idsMap k with
  | some id => some id
  | none =>
    if k = protoKey then some "[object Object]"
    else if k = "constructor" then some "function Object() \x7b [native code] \x7d"
    else if inheritedFunctions.contains k then
      some ("function " ++ k ++ "() \x7b [native code] \x7d")
    else none

/-- Lines 76-79: the string `ids`. -/
def requestIds (toLowerCase : String → String) (cryptoList : List String) : String :=
  ",".intercalate (cryptoList.filterMap fun symbol => idLookup (toLowerCase symbol))

/-- Lines 85-93: the loop over `Object.entries(idsMap)` that fills `rates`. -/
def ratesOfResponse (data : RateResponse) : Rates :=
  idsMap.filterMap fun (symbol, id) =>
    match getOwn data id with
    | some entry => some (symbol, entry.eur)
    | none => none

/-- `fetchCryptoRatesToEUR(cryptoList)`. -/
def fetchCryptoRatesToEUR (toLowerCase : String → String) (service : RateService)
    (cryptoList : List String) : Rates :=
  let ids := requestIds toLowerCase cryptoList
  if ids = "" then []
  else
    match service ids with
    | some data => ratesOfResponse data
    | none => []

/-- Whether `fetchCryptoRatesToEUR(cryptoList)` reaches `axios.get` (line 86). -/
def callsService (toLowerCase : String → String) (cryptoList : List String) : Bool :=
  requestIds toLowerCase cryptoList != ""

/-! ## The aggregator: `calculateTotal` (lines 100-132) -/

/-- A row as `csv-parser` delivers it to the `forEach` callback: the cells of
the `currency` and `amount` columns, `none` (`undefined`) when the row has no
such column.  Other columns are never read. -/
structure Row where
  currency : Option String
  amount : Option String
  deriving DecidableEq, Repr

/-- A value stored in `totals`.  `text` is the string that `+=` produces when
the slot read was not a number (an inherited function, or such a string
already): it is non-empty, hence truthy, and `ToNumber` of it is `NaN`. -/
inductive TotalVal where
  | num (x : JSNum)
  | text
  deriving DecidableEq, Repr

/-- The object `totals`. -/
abbrev Totals := List (String × TotalVal)

/-- The two variables the `forEach` loop updates. -/
structure Acc where
  totals : Totals
  uniqueCurrencies : List String
  deriving DecidableEq, Repr

/-- `Set.prototype.add` on the insertion-ordered set `uniqueCurrencies`. -/
def setAdd (set : List String) (c : String) : List String :=
  if set.contains c then set else set ++ [c]

/-- Lines 116-117 for a currency `c` and `a = Math.abs(amount)`:
`if (!totals[c]) totals[c] = 0; totals[c] += a`.

* an own number: a falsy one (`0`, `NaN`) is reset to `0`, then `a` is added;
* an own string stays a string;
* no own property, `c` is `__proto__`: the read is truthy, and the write
  reaches the inherited setter, which ignores the string: nothing changes;
* no own property, `c` names an inherited function: the read is truthy, so no
  reset, and function `+` number is a string, stored as an own property;
* otherwise the read is `undefined`: the slot is set to `0` and `a` added. -/
def bump (totals : Totals) (c : String) (a : JSNum) : Totals :=
  match getOwn totals c with
  | some (.num x) => setProp totals c (.num ((if x.truthy then x else JSNum.zero).add a))
  | some .text => setProp totals c .text
  | none =>
    if c = protoKey then totals
    else if inheritedFunctions.contains c then setProp totals c .text
    else setProp totals c (.num (JSNum.zero.add a))

/-- The test of line 114, `!isNaN(amount) && currency`, on
`currency = tx.currency?.toLowerCase()` and `amount = parseFloat(tx.amount)`:
the amount is not `NaN` and the currency is a non-empty string. -/
def rowCounts (toLowerCase : String → String) (tx : Row) : Bool :=
  match tx.currency with
  | none => false
  | some s => !(parseFloat tx.amount).isNaN && toLowerCase s != ""

/-- The body of the `forEach` callback (lines 112-118). -/
def addRow (toLowerCase : String → String) (acc : Acc) (tx : Row) : Acc :=
  match tx.currency with
  | none => acc
  | some s =>
    let currency := toLowerCase s
    let amount := parseFloat tx.amount
    if !amount.isNaN && currency != "" then
      { totals := bump acc.totals currency amount.abs
        uniqueCurrencies := setAdd acc.uniqueCurrencies currency }
    else acc

/-- Lines 108-119: the loop over the rows. -/
def accumulate (toLowerCase : String → String) (transactions : List Row) : Acc :=
  transactions.foldl (addRow toLowerCase) { totals := [], uniqueCurrencies := [] }

/-- `rates[currency] || 0` as the number the multiplication of line 127 sees:
an own truthy rate; `0` for an own rate that is `undefined`, `0` or `NaN`;
for a key found on `Object.prototype` the inherited object, whose `ToNumber`
is `NaN`; `0` for any other missing key. -/
def eurRate (rates : Rates) (currency : String) : JSNum :=
  match getOwn rates currency with
  | some (some r) => if r.truthy then r else JSNum.zero
  | some none => JSNum.zero
  | none => if isInherited currency then .nan else JSNum.zero

/-- `ToNumber` of a value of `totals`, as the multiplication applies it. -/
def TotalVal.toNumber : TotalVal → JSNum
  | .num x => x
  | .text => .nan

/-- One value of the result object: `{ eur: <string> }`. -/
structure EurEntry where
  eur : String
  deriving DecidableEq, Repr

/-- Lines 123-129: one entry per entry of `totals` (its keys are distinct, so
every assignment `result[currency] = ...` adds a property).  The list keeps
the order of `totals`; `Object.entries(totals)` moves array-index keys to the
front, which every later enumeration of the result does again. -/
def buildResult (totals : Totals) (rates : Rates) : List (String × EurEntry) :=
  totals.map fun (currency, total) =>
    (currency, { eur := (total.toNumber.mul (eurRate rates currency)).toFixed2 })

/-- Lines 107-131 on the rows of the file: accumulate, fetch the rates for
`Array.from(uniqueCurrencies)`, build the result. -/
def aggregate (toLowerCase : String → String) (service : RateService)
    (transactions : List Row) : List (String × EurEntry) :=
  let acc := accumulate toLowerCase transactions
  let rates := fetchCryptoRatesToEUR toLowerCase service acc.uniqueCurrencies
  buildResult acc.totals rates

/-- The transaction kind, the `type` argument: `deposit` or `withdrawal`. -/
inductive Kind where
  | deposit
  | withdrawal
  deriving DecidableEq, Repr

/-- The string of a kind. -/
def Kind.name : Kind → String
  | .deposit => "deposit"
  | .withdrawal => "withdrawal"

/-- A value of the `userFiles` map: the object holding, under the key
`deposit` or `withdrawal`, the path of each kind that was registered, in the
order the kinds were first registered. -/
structure UserData where
  props : List (String × String)
  deriving DecidableEq, Repr

/-- `userData[type]`. -/
def UserData.get (d : UserData) (type : Kind) : Option String :=
  getOwn d.props type.name

/-- `userData[type] = filePath`. -/
def UserData.set (d : UserData) (type : Kind) (filePath : String) : UserData :=
  { props := setProp d.props type.name filePath }

/-- The state the handlers share: the `userFiles` map and the files under
`user_files`, each with the rows `csv-parser` reads from it. -/
structure State where
  userFiles : List (String × UserData)
  files : List (String × List Row)
  deriving Repr

/-- `getFilePath(userId, type)` (lines 168-171); `none` is `null` or `undefined`. -/
def getFilePath (userFiles : List (String × UserData)) (userId : String) (type : Kind) :
    Option String :=
  match mapGet userFiles userId with
  | some userData => userData.get type
  | none => none

/-- `loadCSV(filePath)` (lines 24-36): the rows of the file, or `none` when
the file cannot be opened.  The `error` handler of line 31 is attached to the
csv transform, not to the read stream, so in that case the promise is neither
resolved nor rejected. -/
def loadCSV (files : List (String × List Row)) (filePath : String) : Option (List Row) :=
  mapGet files filePath

/-- What `calculateTotal` resolves to: the object `{ error: <message> }` of
line 104, or the result object of line 131. -/
inductive Aggregate where
  | error (message : String)
  | result (entries : List (String × EurEntry))
  deriving DecidableEq, Repr

/-- The message of line 104. -/
def noFileMessage (type : Kind) : String :=
  "No " ++ type.name ++ " file found for this user."

/-- What becomes of the promise returned by `calculateTotal`: it is resolved
with a value, or it stays pending because `loadCSV` never settles. -/
inductive Outcome where
  | pending
  | resolved (value : Aggregate)
  deriving DecidableEq, Repr

/-- `calculateTotal(userId, type)`. -/
def calculateTotal (toLowerCase : String → String) (service : RateService) (s : State)
    (userId : String) (type : Kind) : Outcome :=
  match getFilePath s.userFiles userId type with
  | none => .resolved (.error (noFileMessage type))
  | some filePath =>
    if filePath = "" then .resolved (.error (noFileMessage type))
    else
      match loadCSV s.files filePath with
      | none => .pending
      | some transactions => .resolved (.result (aggregate toLowerCase service transactions))

/-! ## Registry updates: upload (lines 179-187) and `clear` (lines 267-286) -/

/-- `path.join(userFilesDir, type + '_' + id + '.csv')`. -/
def uploadPath (userFilesDir : String) (type : Kind) (userId : String) : String :=
  userFilesDir ++ "/" ++ type.name ++ "_" ++ userId ++ ".csv"

/-- The effect of `handleFileUpload` on the state: the file is written and
its path stored under the user and kind. -/
def handleFileUpload (userFilesDir : String) (s : State) (userId : String) (type : Kind)
    (rows : List Row) : State :=
  let filePath := uploadPath userFilesDir type userId
  let userData := (mapGet s.userFiles userId).getD { props := [] }
  { userFiles := mapSet s.userFiles userId (userData.set type filePath)
    files := mapSet s.files filePath rows }

/-- The `clear` command: the state afterwards and the list `deletedFiles`.
The loop runs over `Object.entries(userData)`; `fs.unlinkSync` of a file that
`fs.existsSync` found is taken to succeed. -/
def clearCommand (s : State) (userId : String) : State × List String :=
  match mapGet s.userFiles userId with
  | some userData =>
    let existing :=
      (enumerationOrder userData.props).filter fun e => (mapGet s.files e.2).isSome
    ({ userFiles := mapDelete s.userFiles userId
       files := existing.foldl (fun fs e => mapDelete fs e.2) s.files },
     existing.map fun e => e.1 ++ ".csv")
  | none => (s, [])

/-! ## The `total` command (lines 288-314) and the breakdown (lines 345-359) -/

/-- The value of `aggregate.error`, when it is truthy: the message of an error
object, or the entry a result object holds under the key `error`. -/
inductive ErrorField where
  | message (text : String)
  | entry (e : EurEntry)
  deriving DecidableEq, Repr

/-- `aggregate.error`, `none` when it is `undefined` or an empty string. -/
def Aggregate.errorField : Aggregate → Option ErrorField
  | .error message => if message = "" then none else some (.message message)
  | .result entries => (getOwn entries "error").map .entry

/-- The keys `for (const currency in aggregate)` visits, in that order. -/
def Aggregate.keys : Aggregate → List String
  | .error _ => ["error"]
  | .result entries => ownKeys (enumerationOrder entries)

/-- `aggregate[currency]?.eur`: the `eur` string of an own entry; `undefined`
otherwise (a string, a function and `Object.prototype` have no `eur`). -/
def Aggregate.eurOf : Aggregate → String → Option String
  | .error _, _ => none
  | .result entries, currency => (getOwn entries currency).map (·.eur)

/-- `parseFloat(v || 0)` for `v` a string or `undefined`. -/
def parseFloatOrZero : Option String → JSNum
  | some v => if v = "" then parseFloatStr "0" else parseFloatStr v
  | none => parseFloatStr "0"

/-- Lines 299-308: the loop `for (const currency in aggregate) total +=
parseFloat(aggregate[currency].eur || 0)`, starting from `0`. -/
def sumEUR (aggregate : Aggregate) : JSNum :=
  aggregate.keys.foldl
    (fun total currency => total.add (parseFloatOrZero (aggregate.eurOf currency)))
    JSNum.zero

/-- The figures of the summary embed (lines 299-311). -/
structure Summary where
  totalDepositEUR : JSNum
  totalWithdrawalEUR : JSNum
  profitRaw : JSNum
  profitStatus : String
  deriving DecidableEq, Repr

/-- What the `total` command replies with. -/
inductive TotalReply where
  | noRecords (content : ErrorField)
  | summary (s : Summary)
  deriving DecidableEq, Repr

/-- Lines 291-311, on the two values `calculateTotal` resolved to. -/
def totalCommand (deposits withdrawals : Aggregate) : TotalReply :=
  match deposits.errorField with
  | some content => .noRecords content
  | none =>
    match withdrawals.errorField with
    | some content => .noRecords content
    | none =>
      let totalDepositEUR := sumEUR deposits
      let totalWithdrawalEUR := sumEUR withdrawals
      let profitRaw := totalWithdrawalEUR.sub totalDepositEUR
      .summary
        { totalDepositEUR := totalDepositEUR
          totalWithdrawalEUR := totalWithdrawalEUR
          profitRaw := profitRaw
          profitStatus := if profitRaw.geZero then "Profit" else "Loss" }

/-- One group of three fields of the breakdown embed (lines 350-358). -/
structure BreakdownItem where
  currency : String
  dep : JSNum
  wit : JSNum
  profit : String
  deriving DecidableEq, Repr

/-- Lines 348-359, on the two values `calculateTotal` resolved to. -/
def detailedBreakdown (deposits withdrawals : Aggregate) : List BreakdownItem :=
  deposits.keys.map fun currency =>
    let dep := parseFloatOrZero (deposits.eurOf currency)
    let wit := parseFloatOrZero (withdrawals.eurOf currency)
    { currency := currency, dep := dep, wit := wit, profit := (wit.sub dep).toFixed2 }

/-- The `total` command on a state (lines 288-311): `none` when one of the
two `calculateTotal` calls stays pending, so that the command never replies. -/
def totalHandler (toLowerCase : String → String) (service : RateService) (s : State)
    (userId : String) : Option TotalReply :=
  match calculateTotal toLowerCase service s userId .deposit,
        calculateTotal toLowerCase service s userId .withdrawal with
  | .resolved deposits, .resolved withdrawals => some (totalCommand deposits withdrawals)
  | _, _ => none

/-- The `show_detailed_breakdown` button on a state (lines 345-367): the
groups of fields of the embed that is sent; `none` when no breakdown is sent,
because one of the two `calculateTotal` calls stays pending, or because the
three fields per currency exceed the 25 fields `EmbedBuilder.addFields`
accepts and the `catch` block replies instead. -/
def breakdownHandler (toLowerCase : String → String) (service : RateService) (s : State)
    (userId : String) : Option (List BreakdownItem) :=
  match calculateTotal toLowerCase service s userId .deposit,
        calculateTotal toLowerCase service s userId .withdrawal with
  | .resolved deposits, .resolved withdrawals =>
    let items := detailedBreakdown deposits withdrawals
    if 25 < 3 * items.length then none else some items
  | _, _ => none

/-! ## Instances used in the examples -/

/-- `toLowerCase` on ASCII strings. -/
def asciiLower (s : String) : String := String.mk (s.toList.map Char.toLower)

/-- The state at start-up with an empty `user_files` directory. -/
def emptyState : State := { userFiles := [], files := [] }

/-- The state after user `42` uploaded `rows` as the file of kind `type`. -/
def uploaded (type : Kind) (rows : List Row) : State :=
  handleFileUpload "user_files" emptyState "42" type rows

/-- A service that answers every request with the price `eur` for bitcoin. -/
def bitcoinService (eur : String) : RateService :=
  fun _ => some [("bitcoin", { eur := some (parseFloatStr eur) })]

/-- A service whose every request fails. -/
def failingService : RateService := fun _ => none

/-- The state after user `42` uploaded `deposits` and then `withdrawals`. -/
def uploadedBoth (deposits withdrawals : List Row) : State :=
  handleFileUpload "user_files" (uploaded .deposit deposits) "42" .withdrawal withdrawals

/-! ## Specification-side definitions -/

/-- Whether the loop adds the amount of `tx` under the key `c`: the row passes
the test of line 114 and its lowercased currency is `c`. -/
def addsUnder (toLowerCase : String → String) (c : String) (tx : Row) : Bool :=
  rowCounts toLowerCase tx && decide (tx.currency.map toLowerCase = some c)

/-- The amounts the loop adds under the key `c`: `Math.abs(parseFloat(amount))`
of every counted row whose lowercased currency is `c`, in row order. -/
def contributions (toLowerCase : String → String) (c : String) (rows : List Row) :
    List JSNum :=
  (rows.filter (addsUnder toLowerCase c)).map fun tx => (parseFloat tx.amount).abs

/-- Two rows that differ at most in the letter case of the currency symbol:
the same amount cell, and currency cells with the same lowercase form. -/
def sameUpToCase (toLowerCase : String → String) (r r' : Row) : Prop :=
  r.amount = r'.amount ∧ r.currency.map toLowerCase = r'.currency.map toLowerCase

/-- The rows of the example of C1. -/
def exampleRows : List Row := [⟨some "btc", some "1.5"⟩, ⟨some "BTC", some "-0.5"⟩]

/-- The sum of a list of numbers, added left to right to `0`. -/
def sumNumbers (l : List JSNum) : JSNum := l.foldl JSNum.add JSNum.zero

/-- What `totals` holds under the key `c` once the amounts `l` were added
under it: nothing if there were none; nothing for `__proto__`; a string for
the name of an inherited function; otherwise the sum of the amounts. -/
def totalOf (c : String) (l : List JSNum) : Option TotalVal :=
  if l.isEmpty then none
  else if c = protoKey then none
  else if inheritedFunctions.contains c then some .text
  else some (.num (sumNumbers l))

/-- The rate of `c` in the table the provider returned, `0` when the table
holds none for `c` (or holds `undefined`, `0` or `NaN`). -/
def resolvedRate (rates : Rates) (c : String) : JSNum :=
  match getOwn rates c with
  | some (some r) => if r.truthy then r else JSNum.zero
  | _ => JSNum.zero

/-- The table of rates `calculateTotal` obtains for the rows of a file. -/
def ratesFor (toLowerCase : String → String) (service : RateService) (rows : List Row) :
    Rates :=
  fetchCryptoRatesToEUR toLowerCase service (accumulate toLowerCase rows).uniqueCurrencies

/-- The product `T(c) * r(c)`: the sum of the counted amounts of currency `c`
times its resolved rate, in JavaScript Number arithmetic. -/
def valueInEUR (toLowerCase : String → String) (service : RateService) (rows : List Row)
    (c : String) : JSNum :=
  (sumNumbers (contributions toLowerCase c rows)).mul
    (resolvedRate (ratesFor toLowerCase service rows) c)

/-- The exact value of the finite magnitude of `k` units: `k / 2^1074`. -/
def magValue (k : Nat) : ℚ := (k : ℚ) / (unitsPerOne : ℚ)

/-- Half-up rounding of a non-negative rational to two decimals, as a number
of hundredths: the integer nearest to `100 q`, the larger one on a tie. -/
def roundHalfUp2 (q : ℚ) : Nat := ⌊q * 100 + 1 / 2⌋₊

/-- A numeral with exactly two decimals: an optional minus sign, at least one
digit, a point, two digits. -/
def isTwoDecimal (s : String) : Bool :=
  let cs := match s.toList with
    | '-' :: rest => rest
    | rest => rest
  match cs.dropWhile Char.isDigit with
  | ['.', a, b] => !(cs.takeWhile Char.isDigit).isEmpty && a.isDigit && b.isDigit
  | _ => false

/-- The exact value of the finite double of sign `neg` and magnitude `k` units. -/
def exactValue (neg : Bool) (k : Nat) : ℚ :=
  (if neg then -(k : ℚ) else (k : ℚ)) / (unitsPerOne : ℚ)

/-- The number of hundredths that a numeral with two decimals denotes, as a
decimal number; `none` for any other string. -/
def centsOf (s : String) : Option Int :=
  if isTwoDecimal s then
    let n : Int := digitsValue (s.toList.filter Char.isDigit)
    some (if s.toList.head? == some '-' then -n else n)
  else none

/-- The sum of the per-currency EUR values of an aggregate as decimal numbers,
in hundredths; `none` when a value is no numeral with two decimals. -/
def exactTotalCents (entries : List (String × EurEntry)) : Option Int :=
  entries.foldl
    (fun acc p =>
      match acc, centsOf p.2.eur with
      | some a, some c => some (a + c)
      | _, _ => none)
    (some 0)

/-- A number that is `+0`, positive and finite, or `+Infinity`. -/
inductive JSNum.NonNeg : JSNum → Prop
  | inf : JSNum.NonNeg (.inf false)
  | fin (k : Nat) : JSNum.NonNeg (.fin false k)

/-! ## Lemmas on objects -/

theorem getOwn_setProp_same {α : Type} (o : List (String × α)) (k : String) (v : α) :
    getOwn (setProp o k v) k = some v := by
  induction o with
  | nil => simp [setProp, getOwn]
  | cons p rest ih =>
    obtain ⟨k', v'⟩ := p
    by_cases h : k' = k
    · simp [setProp, getOwn, h]
    · simp [setProp, getOwn, h, ih]

theorem getOwn_setProp_other {α : Type} (o : List (String × α)) (k c : String) (v : α)
    (h : k ≠ c) : getOwn (setProp o k v) c = getOwn o c := by
  induction o with
  | nil => simp [setProp, getOwn, h]
  | cons p rest ih =>
    obtain ⟨k', v'⟩ := p
    by_cases hk : k' = k
    · subst hk
      simp [setProp, getOwn, h]
    · by_cases hc : k' = c
      · subst hc
        simp [setProp, getOwn, hk]
      · simp [setProp, getOwn, hk, hc, ih]

theorem getOwn_map_entry {α β : Type} (o : List (String × α)) (f : String → α → β)
    (c : String) :
    getOwn (o.map fun p => (p.1, f p.1 p.2)) c = (getOwn o c).map (f c) := by
  induction o with
  | nil => simp [getOwn]
  | cons p rest ih =>
    obtain ⟨k', v'⟩ := p
    by_cases hc : k' = c
    · subst hc
      simp [getOwn]
    · simp [getOwn, hc, ih]

/-! ## Lemmas on numbers -/

theorem ofMag_false_nonNeg (num den : Nat) : (JSNum.ofMag false num den).NonNeg := by
  unfold JSNum.ofMag
  cases roundMag num den
  · exact .inf
  · exact .fin _

theorem add_nonNeg {x y : JSNum} (hx : x.NonNeg) (hy : y.NonNeg) : (x.add y).NonNeg := by
  cases hx with
  | inf =>
    cases hy with
    | inf => simpa [JSNum.add] using JSNum.NonNeg.inf
    | fin b => simpa [JSNum.add] using JSNum.NonNeg.inf
  | fin a =>
    cases hy with
    | inf => simpa [JSNum.add] using JSNum.NonNeg.inf
    | fin b =>
      simp only [JSNum.add, ↓reduceIte]
      exact ofMag_false_nonNeg _ _

theorem abs_nonNeg {x : JSNum} (h : x.isNaN = false) : x.abs.NonNeg := by
  cases x with
  | nan => simp [JSNum.isNaN] at h
  | inf s => exact .inf
  | fin s k => exact .fin k

theorem zero_nonNeg : JSNum.zero.NonNeg := .fin 0

/-- The reset of line 116 leaves a non-negative total as it is. -/
theorem reset_nonNeg {x : JSNum} (h : x.NonNeg) :
    (if x.truthy then x else JSNum.zero) = x := by
  cases h with
  | inf => simp [JSNum.truthy]
  | fin k =>
    by_cases hk : k = 0
    · subst hk; simp [JSNum.truthy, JSNum.zero]
    · simp [JSNum.truthy, hk]

theorem foldl_add_nonNeg (l : List JSNum) (x : JSNum) (hx : x.NonNeg)
    (hl : ∀ y ∈ l, y.NonNeg) : (l.foldl JSNum.add x).NonNeg := by
  induction l generalizing x with
  | nil => simpa using hx
  | cons y rest ih =>
    simp only [List.foldl_cons]
    exact ih _ (add_nonNeg hx (hl y (List.mem_cons_self _ _)))
      (fun z hz => hl z (List.mem_cons_of_mem _ hz))

theorem rowCounts_notNaN (toLowerCase : String → String) (tx : Row)
    (h : rowCounts toLowerCase tx = true) : (parseFloat tx.amount).isNaN = false := by
  unfold rowCounts at h
  cases hc : tx.currency with
  | none => simp [hc] at h
  | some s =>
    simp only [hc, Bool.and_eq_true, Bool.not_eq_true'] at h
    exact h.1

theorem contributions_nonNeg (toLowerCase : String → String) (c : String) (rows : List Row) :
    ∀ y ∈ contributions toLowerCase c rows, y.NonNeg := by
  intro y hy
  simp only [contributions, List.mem_map, List.mem_filter] at hy
  obtain ⟨tx, ⟨_, htx⟩, rfl⟩ := hy
  apply abs_nonNeg
  unfold addsUnder at htx
  simp only [Bool.and_eq_true] at htx
  exact rowCounts_notNaN toLowerCase tx htx.1

theorem sumNumbers_nonNeg (toLowerCase : String → String) (c : String) (rows : List Row) :
    (sumNumbers (contributions toLowerCase c rows)).NonNeg :=
  foldl_add_nonNeg _ _ zero_nonNeg (contributions_nonNeg toLowerCase c rows)


/-! ## The loop of `calculateTotal` -/

theorem getOwn_bump_other (t : Totals) (k c : String) (a : JSNum) (h : k ≠ c) :
    getOwn (bump t k a) c = getOwn t c := by
  unfold bump
  split
  · exact getOwn_setProp_other _ _ _ _ h
  · exact getOwn_setProp_other _ _ _ _ h
  · split
    · rfl
    · split
      · exact getOwn_setProp_other _ _ _ _ h
      · exact getOwn_setProp_other _ _ _ _ h

theorem sumNumbers_append (l : List JSNum) (a : JSNum) :
    sumNumbers (l ++ [a]) = (sumNumbers l).add a := by
  simp [sumNumbers, List.foldl_append]

theorem getOwn_bump_same (t : Totals) (c : String) (a : JSNum) (l : List JSNum)
    (hl : ∀ y ∈ l, y.NonNeg) (ht : getOwn t c = totalOf c l) :
    getOwn (bump t c a) c = totalOf c (l ++ [a]) := by
  have hne : (l ++ [a]).isEmpty = false := by cases l <;> rfl
  unfold bump
  by_cases hp : c = protoKey
  · subst hp
    have h1 : getOwn t protoKey = none := by
      rw [ht]; unfold totalOf; split <;> simp
    simp [h1, totalOf, hne]
  · by_cases hf : c ∈ inheritedFunctions
    · cases hl0 : l.isEmpty with
      | true =>
        have h1 : getOwn t c = none := by rw [ht]; simp [totalOf, hl0]
        simp [h1, hp, hf, totalOf, hne, getOwn_setProp_same]
      | false =>
        have h1 : getOwn t c = some .text := by rw [ht]; simp [totalOf, hl0, hp, hf]
        simp [h1, hp, hf, totalOf, hne, getOwn_setProp_same]
    · cases hl0 : l.isEmpty with
      | true =>
        have h1 : getOwn t c = none := by rw [ht]; simp [totalOf, hl0]
        have h2 : l = [] := List.isEmpty_iff.mp hl0
        subst h2
        simp [h1, hp, hf, totalOf, getOwn_setProp_same, sumNumbers]
      | false =>
        have h1 : getOwn t c = some (.num (sumNumbers l)) := by
          rw [ht]; simp [totalOf, hl0, hp, hf]
        have h3 : (sumNumbers l).NonNeg := foldl_add_nonNeg _ _ zero_nonNeg hl
        simp [h1, getOwn_setProp_same, totalOf, hne, hp, hf, reset_nonNeg h3,
          sumNumbers_append]

theorem accumulate_append (toLowerCase : String → String) (rows : List Row) (tx : Row) :
    accumulate toLowerCase (rows ++ [tx]) = addRow toLowerCase (accumulate toLowerCase rows) tx := by
  simp [accumulate, List.foldl_append]

theorem contributions_append (toLowerCase : String → String) (c : String) (rows : List Row)
    (tx : Row) :
    contributions toLowerCase c (rows ++ [tx]) =
      contributions toLowerCase c rows ++ contributions toLowerCase c [tx] := by
  simp [contributions, List.filter_append]

theorem contributions_single (toLowerCase : String → String) (c : String) (tx : Row) :
    contributions toLowerCase c [tx] =
      if addsUnder toLowerCase c tx then [(parseFloat tx.amount).abs] else [] := by
  unfold contributions
  by_cases h : addsUnder toLowerCase c tx = true
  · simp [List.filter_cons, h]
  · simp [List.filter_cons, h]

/-- The closed form of `totals`: after the loop, the own property of `totals`
under any key `c` is `totalOf c` of the amounts of the counted rows whose
lowercased currency is `c`. -/
theorem totals_closed_form (toLowerCase : String → String) (rows : List Row) (c : String) :
    getOwn (accumulate toLowerCase rows).totals c =
      totalOf c (contributions toLowerCase c rows) := by
  induction rows using List.reverseRecOn with
  | nil => simp [accumulate, contributions, getOwn, totalOf]
  | append_singleton rows tx ih =>
    rw [accumulate_append, contributions_append, contributions_single]
    have hl := contributions_nonNeg toLowerCase c rows
    unfold addRow addsUnder rowCounts
    cases hcur : tx.currency with
    | none => simpa using ih
    | some s =>
      simp only [Option.map_some']
      by_cases hv : (!(parseFloat tx.amount).isNaN && toLowerCase s != "") = true
      · simp only [hv, ↓reduceIte, Bool.true_and]
        by_cases hk : toLowerCase s = c
        · subst hk
          simp only [decide_True, ↓reduceIte]
          exact getOwn_bump_same _ _ _ _ hl ih
        · have hd : decide (some (toLowerCase s) = some c) = false := by simp [hk]
          simp only [hd, List.append_nil, getOwn_bump_other _ _ _ _ hk]
          simpa using ih
      · simp only [hv, Bool.false_and]
        simpa using ih


/-! ## The registry: `getFilePath` and `clear` -/

theorem mapGet_mapDelete_self {α : Type} (m : List (String × α)) (k : String) :
    mapGet (mapDelete m k) k = none := by
  induction m with
  | nil => rfl
  | cons p rest ih =>
    obtain ⟨k', v⟩ := p
    by_cases h : k' = k
    · simpa [mapDelete, h] using ih
    · simpa [mapDelete, mapGet, h] using ih

theorem getFilePath_clear (s : State) (userId : String) (type : Kind) :
    getFilePath (clearCommand s userId).1.userFiles userId type = none := by
  unfold clearCommand
  cases h : mapGet s.userFiles userId with
  | none => simp [getFilePath, h]
  | some userData => simp [getFilePath, mapGet_mapDelete_self]

/-- `calculateTotal` resolves to the error object exactly when `getFilePath`
yields no path (or an empty one). -/
theorem calculateTotal_error_iff (toLowerCase : String → String) (service : RateService)
    (s : State) (userId : String) (type : Kind) :
    (∃ message, calculateTotal toLowerCase service s userId type = .resolved (.error message)) ↔
      (getFilePath s.userFiles userId type = none ∨
        getFilePath s.userFiles userId type = some "") := by
  unfold calculateTotal
  cases h : getFilePath s.userFiles userId type with
  | none => simp
  | some filePath =>
    by_cases hp : filePath = ""
    · simp [hp]
    · simp only [hp, ↓reduceIte]
      cases loadCSV s.files filePath <;> simp [hp]

/-- C10. After the `clear` command for a user, `calculateTotal` for that user
resolves to the error object `No <kind> file found for this user.` for both
kinds, whatever the state was before and whatever the rate service answers. -/
theorem clear_then_no_records (toLowerCase : String → String) (service : RateService)
    (s : State) (userId : String) (type : Kind) :
    calculateTotal toLowerCase service (clearCommand s userId).1 userId type =
      .resolved (.error (noFileMessage type)) := by
  unfold calculateTotal
  rw [getFilePath_clear]


/-! ## The `total` command -/

theorem getOwn_of_mem {α : Type} (o : List (String × α)) (h : (ownKeys o).Nodup)
    (p : String × α) (hp : p ∈ o) : getOwn o p.1 = some p.2 := by
  induction o with
  | nil => simp at hp
  | cons q rest ih =>
    obtain ⟨k, v⟩ := q
    simp only [ownKeys, List.map_cons, List.nodup_cons] at h
    rcases List.mem_cons.mp hp with rfl | hmem
    · simp [getOwn]
    · have hne : k ≠ p.1 := by
        intro hk
        exact h.1 (hk ▸ List.mem_map_of_mem Prod.fst hmem)
      simp only [getOwn, hne, ↓reduceIte]
      exact ih h.2 hmem

/-! ## Evaluations at the inputs where the code departs from the specification -/

/-- The currencies of the breakdown are the keys of the deposit aggregate, in
order: the withdrawal aggregate adds none. -/
theorem detailedBreakdown_currencies (deposits withdrawals : Aggregate) :
    (detailedBreakdown deposits withdrawals).map (·.currency) = deposits.keys := by
  simp [detailedBreakdown, Function.comp_def]

/-- C4 (defect of the code). User `42` uploaded an empty deposit file and a
withdrawal file with the one row `btc, 1`; bitcoin is priced at 10 EUR.  The
withdrawal aggregate holds `btc` with value `10.00`, the `total` command
reports 10 EUR withdrawn, and the breakdown is empty: the currency that only
the withdrawal aggregate holds has no entry. -/
theorem breakdown_omits_withdrawal_only_currency :
    calculateTotal asciiLower (bitcoinService "10")
        (uploadedBoth [] [⟨some "btc", some "1"⟩]) "42" .withdrawal =
      .resolved (.result [("btc", ⟨"10.00"⟩)]) ∧
    calculateTotal asciiLower (bitcoinService "10")
        (uploadedBoth [] [⟨some "btc", some "1"⟩]) "42" .deposit =
      .resolved (.result []) ∧
    breakdownHandler asciiLower (bitcoinService "10")
        (uploadedBoth [] [⟨some "btc", some "1"⟩]) "42" = some [] ∧
    (sumEUR (.result [("btc", ⟨"10.00"⟩)])).toFixed2 = "10.00" := by
  decide

/-- C3 (defect of the code). User `42` uploaded a deposit file with the one
row `error, 1` and an empty withdrawal file.  Both record sets are registered
and `calculateTotal` resolves to result objects for both, yet the test
`deposits.error` of the `total` command finds the entry of the currency
`error` and the command replies as if no deposit file existed. -/
theorem registered_set_reported_as_missing :
    getFilePath (uploadedBoth [⟨some "error", some "1"⟩] []).userFiles "42" .deposit =
      some "user_files/deposit_42.csv" ∧
    calculateTotal asciiLower failingService
        (uploadedBoth [⟨some "error", some "1"⟩] []) "42" .deposit =
      .resolved (.result [("error", ⟨"0.00"⟩)]) ∧
    calculateTotal asciiLower failingService
        (uploadedBoth [⟨some "error", some "1"⟩] []) "42" .withdrawal =
      .resolved (.result []) ∧
    totalHandler asciiLower failingService
        (uploadedBoth [⟨some "error", some "1"⟩] []) "42" =
      some (.noRecords (.entry ⟨"0.00"⟩)) := by
  decide

/-- C8 (defect of the code). The symbol `constructor` is no key of `idsMap`,
but the read `idsMap['constructor']` finds the inherited function, which
`.filter(Boolean)` keeps: `ids` is not empty, the external call is made, and
the result holds whatever table symbols the response has entries for. -/
theorem inherited_symbol_reaches_service :
    getOwn idsMap "constructor" = none ∧
    requestIds asciiLower ["constructor"] = "function Object() \x7b [native code] \x7d" ∧
    callsService asciiLower ["constructor"] = true ∧
    fetchCryptoRatesToEUR asciiLower (bitcoinService "50000") ["constructor"] =
      [("btc", some (parseFloatStr "50000"))] := by
  decide


/-! ## Two-decimal numerals -/

theorem digitChar_isDigit : ∀ m, m < 10 → (Nat.digitChar m).isDigit = true := by decide

theorem toDigitsCore_isDigit (fuel : Nat) : ∀ (n : Nat) (ds : List Char),
    (∀ c ∈ ds, c.isDigit = true) → ∀ c ∈ Nat.toDigitsCore 10 fuel n ds, c.isDigit = true := by
  induction fuel with
  | zero => intro n ds h; simpa [Nat.toDigitsCore] using h
  | succ fuel ih =>
    intro n ds h
    have hd : (Nat.digitChar (n % 10)).isDigit = true :=
      digitChar_isDigit _ (Nat.mod_lt _ (by decide))
    have h' : ∀ c ∈ Nat.digitChar (n % 10) :: ds, c.isDigit = true := by
      intro c hc
      rcases List.mem_cons.mp hc with rfl | hc
      · exact hd
      · exact h c hc
    unfold Nat.toDigitsCore
    simp only
    split
    · exact h'
    · exact ih _ _ h'

theorem toDigits_isDigit (n : Nat) : ∀ c ∈ Nat.toDigits 10 n, c.isDigit = true :=
  toDigitsCore_isDigit _ _ _ (by simp)

/-- The shape of the characters of a two-decimal numeral. -/
theorem isTwoDecimal_of_shape (pre : List Char) (a b : Char) (hne : pre ≠ [])
    (hpre : ∀ c ∈ pre, c.isDigit = true) (ha : a.isDigit = true) (hb : b.isDigit = true) :
    isTwoDecimal (String.mk (pre ++ ['.', a, b])) = true ∧
    isTwoDecimal (String.mk ('-' :: (pre ++ ['.', a, b]))) = true := by
  have hdot : ¬ ('.' : Char).isDigit = true := by decide
  have hdrop : List.dropWhile Char.isDigit (pre ++ ['.', a, b]) = ['.', a, b] := by
    rw [List.dropWhile_append_of_pos hpre, List.dropWhile_cons_of_neg hdot]
  have htake : List.takeWhile Char.isDigit (pre ++ ['.', a, b]) = pre := by
    rw [List.takeWhile_append_of_pos hpre, List.takeWhile_cons_of_neg hdot, List.append_nil]
  have hhead : ∀ rest, pre ++ ['.', a, b] ≠ '-' :: rest := by
    intro rest h
    cases pre with
    | nil => exact hne rfl
    | cons c cs =>
      simp only [List.cons_append, List.cons.injEq] at h
      have := hpre c (List.mem_cons_self _ _)
      rw [h.1] at this
      exact absurd this (by decide)
  constructor
  · unfold isTwoDecimal
    have hcs : (match (String.mk (pre ++ ['.', a, b])).toList with
        | '-' :: rest => rest
        | rest => rest) = pre ++ ['.', a, b] := by
      show (match pre ++ ['.', a, b] with
        | '-' :: rest => rest
        | rest => rest) = pre ++ ['.', a, b]
      split
      · rename_i rest h
        exact absurd h (hhead rest)
      · rfl
    simp only [hcs, hdrop, htake, ha, hb]
    cases pre with
    | nil => exact absurd rfl hne
    | cons c cs => rfl
  · unfold isTwoDecimal
    have hcs : (match (String.mk ('-' :: (pre ++ ['.', a, b]))).toList with
        | '-' :: rest => rest
        | rest => rest) = pre ++ ['.', a, b] := by
      show (match '-' :: (pre ++ ['.', a, b]) with
        | '-' :: rest => rest
        | rest => rest) = pre ++ ['.', a, b]
      split
      · rename_i rest h
        simp only [List.cons.injEq, true_and] at h
        exact h.symm
      · rename_i h
        exact absurd rfl (h (pre ++ ['.', a, b]))
    simp only [hcs, hdrop, htake, ha, hb]
    cases pre with
    | nil => exact absurd rfl hne
    | cons c cs => rfl

theorem twoDecimals_shape (n : Nat) :
    ∃ pre a b, twoDecimals n = String.mk (pre ++ ['.', a, b]) ∧ pre ≠ [] ∧
      (∀ c ∈ pre, c.isDigit = true) ∧ a.isDigit = true ∧ b.isDigit = true := by
  unfold twoDecimals
  generalize hds : List.replicate (3 - (Nat.toDigits 10 n).length) '0' ++ Nat.toDigits 10 n = ds
  have hall : ∀ c ∈ ds, c.isDigit = true := by
    intro c hc
    rw [← hds] at hc
    rcases List.mem_append.mp hc with h | h
    · rw [(List.mem_replicate.mp h).2]; rfl
    · exact toDigits_isDigit n c h
  have hlen : 3 ≤ ds.length := by
    rw [← hds, List.length_append, List.length_replicate]
    omega
  have hdrop : (ds.drop (ds.length - 2)).length = 2 := by
    rw [List.length_drop]; omega
  obtain ⟨a, b, hab⟩ := List.length_eq_two.mp hdrop
  refine ⟨ds.take (ds.length - 2), a, b, ?_, ?_, ?_, ?_, ?_⟩
  · show String.mk _ = _
    rw [hds, hab]
  · intro h
    have := congrArg List.length h
    rw [List.length_take] at this
    simp at this
    omega
  · intro c hc
    exact hall c (List.mem_of_mem_take hc)
  · have hm : a ∈ ds.drop (ds.length - 2) := by rw [hab]; simp
    exact hall a (List.mem_of_mem_drop hm)
  · have hm : b ∈ ds.drop (ds.length - 2) := by rw [hab]; simp
    exact hall b (List.mem_of_mem_drop hm)

theorem isTwoDecimal_twoDecimals (n : Nat) :
    isTwoDecimal (twoDecimals n) = true ∧ isTwoDecimal ("-" ++ twoDecimals n) = true := by
  obtain ⟨pre, a, b, h, hne, hpre, ha, hb⟩ := twoDecimals_shape n
  rw [h]
  exact isTwoDecimal_of_shape pre a b hne hpre ha hb

/-! ## `toFixed(2)` is half-up rounding of the exact value -/

theorem halfUp_floor (k u : Nat) (hu : 0 < u) :
    (200 * k + u) / (2 * u) = ⌊(k : ℚ) / (u : ℚ) * 100 + 1 / 2⌋₊ := by
  have hq : (k : ℚ) / (u : ℚ) * 100 + 1 / 2 =
      ((200 * k + u : ℕ) : ℚ) / ((2 * u : ℕ) : ℚ) := by
    have hu0 : (u : ℚ) ≠ 0 := by exact_mod_cast hu.ne'
    push_cast
    field_simp
    ring
  rw [hq, Nat.floor_div_eq_div]

/-- The integer `toFixed(2)` prints is the half-up rounding, to hundredths, of
the exact value of the double. -/
theorem hundredths_eq_roundHalfUp2 (k : Nat) : hundredths k = roundHalfUp2 (magValue k) :=
  halfUp_floor k unitsPerOne (by decide)

/-- Below `10^21`, `toFixed(2)` prints the sign and the two-decimal numeral of
the magnitude rounded half-up to hundredths. -/
theorem toFixed2_fin (neg : Bool) (k : Nat) (h : k < 10 ^ 21 * unitsPerOne) :
    (JSNum.fin neg k).toFixed2 =
      (if neg && k != 0 then "-" else "") ++ twoDecimals (roundHalfUp2 (magValue k)) := by
  unfold JSNum.toFixed2
  simp only [Nat.not_le.mpr h, ↓reduceIte, hundredths_eq_roundHalfUp2]

/-- Below `10^21`, `toFixed(2)` prints a numeral with exactly two decimals. -/
theorem isTwoDecimal_toFixed2 (neg : Bool) (k : Nat) (h : k < 10 ^ 21 * unitsPerOne) :
    isTwoDecimal (JSNum.fin neg k).toFixed2 = true := by
  rw [toFixed2_fin neg k h]
  have h2 := isTwoDecimal_twoDecimals (roundHalfUp2 (magValue k))
  split
  · exact h2.2
  · have he : "" ++ twoDecimals (roundHalfUp2 (magValue k)) =
        twoDecimals (roundHalfUp2 (magValue k)) := String.empty_append _
    rw [he]
    exact h2.1

/-! ## The result of `calculateTotal` -/

theorem calculateTotal_registered (toLowerCase : String → String) (service : RateService)
    (s : State) (userId : String) (type : Kind) (filePath : String) (rows : List Row)
    (hreg : getFilePath s.userFiles userId type = some filePath) (hpath : filePath ≠ "")
    (hfile : loadCSV s.files filePath = some rows) :
    calculateTotal toLowerCase service s userId type =
      .resolved (.result (aggregate toLowerCase service rows)) := by
  simp [calculateTotal, hreg, hpath, hfile]

theorem getOwn_buildResult (t : Totals) (rates : Rates) (c : String) :
    getOwn (buildResult t rates) c =
      (getOwn t c).map fun total =>
        { eur := (total.toNumber.mul (eurRate rates c)).toFixed2 } := by
  have h := getOwn_map_entry t
    (fun k total => EurEntry.mk (total.toNumber.mul (eurRate rates k)).toFixed2) c
  exact h

theorem eurRate_eq_resolvedRate (rates : Rates) (c : String) (hc : isInherited c = false) :
    eurRate rates c = resolvedRate rates c := by
  unfold eurRate resolvedRate
  cases h : getOwn rates c with
  | none => simp [hc]
  | some v => cases v <;> rfl

theorem totalOf_regular (c : String) (l : List JSNum) (hc : isInherited c = false) :
    totalOf c l = if l.isEmpty then none else some (.num (sumNumbers l)) := by
  unfold isInherited at hc
  simp only [Bool.or_eq_false_iff, beq_eq_false_iff_ne, ne_eq] at hc
  have h2 : c ∉ inheritedFunctions := by
    intro hm
    have := hc.2
    simp [hm] at this
  simp [totalOf, hc.1, h2]

/-- The entry of the result under a key that is not inherited. -/
theorem getOwn_aggregate (toLowerCase : String → String) (service : RateService)
    (rows : List Row) (c : String) (hc : isInherited c = false) :
    getOwn (aggregate toLowerCase service rows) c =
      if (contributions toLowerCase c rows).isEmpty then none
      else some { eur := (valueInEUR toLowerCase service rows c).toFixed2 } := by
  unfold aggregate valueInEUR ratesFor
  simp only [getOwn_buildResult, totals_closed_form, totalOf_regular _ _ hc,
    eurRate_eq_resolvedRate _ _ hc]
  split <;> simp [TotalVal.toNumber]

/-- C1, as amended. For a registered, readable record set and a key `c` that
is not a property name inherited from `Object.prototype`, `calculateTotal`
resolves to a result object that holds `c` exactly when some counted row has
the lowercased currency `c`, and then maps it to `(T(c) * r(c)).toFixed(2)`:
`T(c)` is the sum, in row order, of `Math.abs(parseFloat(amount))` over the
counted rows of currency `c`, `r(c)` the rate the provider returned for `c`
or `0`, both operations in IEEE double arithmetic.  Whenever the product is
finite and below `10^21` in magnitude, that string is the sign followed by
the two-decimal numeral of the exact value of the product rounded half-up to
hundredths, a numeral with exactly two decimals. -/
theorem calculateTotal_value (toLowerCase : String → String) (service : RateService)
    (s : State) (userId : String) (type : Kind) (filePath : String) (rows : List Row)
    (hreg : getFilePath s.userFiles userId type = some filePath) (hpath : filePath ≠ "")
    (hfile : loadCSV s.files filePath = some rows)
    (c : String) (hc : isInherited c = false) :
    ∃ entries,
      calculateTotal toLowerCase service s userId type = .resolved (.result entries) ∧
      getOwn entries c =
        (if (contributions toLowerCase c rows).isEmpty then none
         else some { eur := (valueInEUR toLowerCase service rows c).toFixed2 }) ∧
      ∀ neg k, valueInEUR toLowerCase service rows c = .fin neg k →
        k < 10 ^ 21 * unitsPerOne →
        (valueInEUR toLowerCase service rows c).toFixed2 =
          (if neg && k != 0 then "-" else "") ++ twoDecimals (roundHalfUp2 (magValue k)) ∧
        isTwoDecimal (valueInEUR toLowerCase service rows c).toFixed2 = true := by
  refine ⟨_, calculateTotal_registered toLowerCase service s userId type filePath rows
    hreg hpath hfile, getOwn_aggregate toLowerCase service rows c hc, ?_⟩
  intro neg k hv hk
  rw [hv]
  exact ⟨toFixed2_fin neg k hk, isTwoDecimal_toFixed2 neg k hk⟩


/-- The example of C1: the rows `btc, 1.5` and `BTC, -0.5` with bitcoin at
50000 EUR give `btc` the value `100000.00`. -/
theorem calculateTotal_value_witness :
    (∃ entries,
      calculateTotal asciiLower (bitcoinService "50000") (uploaded .deposit exampleRows)
        "42" .deposit = .resolved (.result entries) ∧
      getOwn entries "btc" =
        (if (contributions asciiLower "btc" exampleRows).isEmpty then none
         else some
          { eur := (valueInEUR asciiLower (bitcoinService "50000") exampleRows "btc").toFixed2 }) ∧
      ∀ neg k, valueInEUR asciiLower (bitcoinService "50000") exampleRows "btc" = .fin neg k →
        k < 10 ^ 21 * unitsPerOne →
        (valueInEUR asciiLower (bitcoinService "50000") exampleRows "btc").toFixed2 =
          (if neg && k != 0 then "-" else "") ++ twoDecimals (roundHalfUp2 (magValue k)) ∧
        isTwoDecimal
          (valueInEUR asciiLower (bitcoinService "50000") exampleRows "btc").toFixed2 = true) ∧
    calculateTotal asciiLower (bitcoinService "50000") (uploaded .deposit exampleRows)
        "42" .deposit = .resolved (.result [("btc", ⟨"100000.00"⟩)]) ∧
    valueInEUR asciiLower (bitcoinService "50000") exampleRows "btc" = parseFloatStr "100000" :=
  ⟨calculateTotal_value asciiLower (bitcoinService "50000") (uploaded .deposit exampleRows)
      "42" .deposit "user_files/deposit_42.csv" exampleRows (by decide) (by decide)
      (by decide) "btc" (by decide),
    by decide, by decide⟩

set_option exponentiation.threshold 400 in
/-- C1 as stated fails. (1) The single row `btc, 1e21` with bitcoin at 1 EUR:
the product is `10^21` and the value is the string `1e+21`. (2) Two rows
`xyz, 1e308` with no rate for `xyz`: either amount is a finite number, their
double sum is `Infinity`, the rate is `0`, and the value is the string `NaN`.
(3) The single row `constructor, 10`: the slot of `totals` is read from
`Object.prototype`, the total becomes a string, and the value is `NaN`.
None of these strings is a numeral with two decimals. -/
theorem calculateTotal_value_not_two_decimals :
    calculateTotal asciiLower (bitcoinService "1")
        (uploaded .deposit [⟨some "btc", some "1e21"⟩]) "42" .deposit =
      .resolved (.result [("btc", ⟨"1e+21"⟩)]) ∧
    isTwoDecimal "1e+21" = false ∧
    calculateTotal asciiLower (bitcoinService "1")
        (uploaded .deposit [⟨some "xyz", some "1e308"⟩, ⟨some "xyz", some "1e308"⟩])
        "42" .deposit =
      .resolved (.result [("xyz", ⟨"NaN"⟩)]) ∧
    calculateTotal asciiLower (bitcoinService "1")
        (uploaded .deposit [⟨some "constructor", some "10"⟩]) "42" .deposit =
      .resolved (.result [("constructor", ⟨"NaN"⟩)]) ∧
    isTwoDecimal "NaN" = false := by
  decide

/-! ## Rows that are not counted -/

theorem addRow_not_counted (toLowerCase : String → String) (acc : Acc) (tx : Row)
    (h : rowCounts toLowerCase tx = false) : addRow toLowerCase acc tx = acc := by
  unfold rowCounts at h
  unfold addRow
  cases hc : tx.currency with
  | none => rfl
  | some s =>
    simp only [hc] at h
    simp [h]

theorem foldl_addRow_filter (toLowerCase : String → String) (rows : List Row) (acc : Acc) :
    (rows.filter (rowCounts toLowerCase)).foldl (addRow toLowerCase) acc =
      rows.foldl (addRow toLowerCase) acc := by
  induction rows generalizing acc with
  | nil => rfl
  | cons tx rest ih =>
    cases h : rowCounts toLowerCase tx with
    | true => simp [List.filter_cons, h, ih]
    | false => simp [List.filter_cons, h, ih, addRow_not_counted toLowerCase acc tx h]

theorem accumulate_filter (toLowerCase : String → String) (rows : List Row) :
    accumulate toLowerCase (rows.filter (rowCounts toLowerCase)) =
      accumulate toLowerCase rows :=
  foldl_addRow_filter toLowerCase rows _

theorem aggregate_filter (toLowerCase : String → String) (service : RateService)
    (rows : List Row) :
    aggregate toLowerCase service (rows.filter (rowCounts toLowerCase)) =
      aggregate toLowerCase service rows := by
  unfold aggregate
  rw [accumulate_filter]

theorem rowCounts_iff (toLowerCase : String → String) (tx : Row) :
    rowCounts toLowerCase tx = true ↔
      (parseFloat tx.amount).isNaN = false ∧
        ∃ s, tx.currency = some s ∧ toLowerCase s ≠ "" := by
  unfold rowCounts
  cases hc : tx.currency with
  | none => simp
  | some s => simp

theorem contributions_isEmpty (toLowerCase : String → String) (c : String) (rows : List Row) :
    (contributions toLowerCase c rows).isEmpty = false ↔
      ∃ tx ∈ rows, addsUnder toLowerCase c tx = true := by
  unfold contributions
  rw [← Bool.not_eq_true, List.isEmpty_iff, List.map_eq_nil_iff, List.filter_eq_nil_iff]
  push_neg
  rfl


/-! ## The keys of the result -/

theorem mem_ownKeys_iff {α : Type} (o : List (String × α)) (c : String) :
    c ∈ ownKeys o ↔ (getOwn o c).isSome = true := by
  induction o with
  | nil => simp [ownKeys, getOwn]
  | cons p rest ih =>
    obtain ⟨k, v⟩ := p
    by_cases h : k = c
    · simp [ownKeys, getOwn, h]
    · have h' : ¬ c = k := fun e => h e.symm
      simp only [ownKeys, List.map_cons, List.mem_cons, h', false_or, getOwn, h, ↓reduceIte]
      exact ih

theorem ownKeys_buildResult (t : Totals) (rates : Rates) :
    ownKeys (buildResult t rates) = ownKeys t := by
  simp [ownKeys, buildResult, Function.comp_def]

theorem totalOf_isSome (c : String) (l : List JSNum) :
    (totalOf c l).isSome = true ↔ l.isEmpty = false ∧ c ≠ protoKey := by
  unfold totalOf
  cases hl : l.isEmpty with
  | true => simp
  | false =>
    by_cases hp : c = protoKey
    · simp [hp]
    · by_cases hf : c ∈ inheritedFunctions <;> simp [hp, hf]

/-- A key other than `__proto__` is in the result exactly when some counted
row has it as lowercased currency; `__proto__` never is. -/
theorem mem_keys_aggregate (toLowerCase : String → String) (service : RateService)
    (rows : List Row) (c : String) :
    c ∈ ownKeys (aggregate toLowerCase service rows) ↔
      (∃ tx ∈ rows, addsUnder toLowerCase c tx = true) ∧ c ≠ protoKey := by
  unfold aggregate
  rw [ownKeys_buildResult, mem_ownKeys_iff, totals_closed_form, totalOf_isSome,
    contributions_isEmpty]

theorem aggregate_nil_of_no_counted (toLowerCase : String → String) (service : RateService)
    (rows : List Row) (h : ∀ tx ∈ rows, rowCounts toLowerCase tx = false) :
    aggregate toLowerCase service rows = [] := by
  have hf : rows.filter (rowCounts toLowerCase) = [] := by
    rw [List.filter_eq_nil_iff]
    intro tx htx
    simp [h tx htx]
  rw [← aggregate_filter, hf]
  rfl

theorem ofMag_zero : JSNum.ofMag false 0 unitsPerOne = JSNum.zero := by decide

theorem mul_zero_of_fin (k : Nat) : (JSNum.fin false k).mul JSNum.zero = JSNum.zero := by
  have h : (JSNum.fin false k).mul JSNum.zero = JSNum.ofMag false (k * 0) unitsPerOne := rfl
  rw [h, Nat.mul_zero, ofMag_zero]

theorem toFixed2_zero : JSNum.zero.toFixed2 = "0.00" := by decide

/-- With no rate for `c`, a finite total is valued `0.00`. -/
theorem value_of_unresolved (toLowerCase : String → String) (service : RateService)
    (rows : List Row) (c : String) (k : Nat)
    (hrate : getOwn (ratesFor toLowerCase service rows) c = none)
    (hfin : sumNumbers (contributions toLowerCase c rows) = .fin false k) :
    (valueInEUR toLowerCase service rows c).toFixed2 = "0.00" := by
  unfold valueInEUR resolvedRate
  rw [hrate, hfin, mul_zero_of_fin, toFixed2_zero]

/-- C6, as amended. For a registered, readable record set and every rate
service, `calculateTotal` resolves to a result object (never the error
object) such that: a key other than `__proto__` is among its keys exactly
when some counted row has it as lowercased currency; if no row is counted the
object is empty; and a currency that is not an inherited property name, has a
counted row, a finite total and no rate in the table the provider returned,
is present with the value `0.00`. -/
theorem calculateTotal_keys (toLowerCase : String → String) (service : RateService)
    (s : State) (userId : String) (type : Kind) (filePath : String) (rows : List Row)
    (hreg : getFilePath s.userFiles userId type = some filePath) (hpath : filePath ≠ "")
    (hfile : loadCSV s.files filePath = some rows) :
    ∃ entries,
      calculateTotal toLowerCase service s userId type = .resolved (.result entries) ∧
      (∀ c, c ≠ protoKey →
        (c ∈ ownKeys entries ↔ ∃ tx ∈ rows, addsUnder toLowerCase c tx = true)) ∧
      ((∀ tx ∈ rows, rowCounts toLowerCase tx = false) → entries = []) ∧
      (∀ c k, isInherited c = false →
        (∃ tx ∈ rows, addsUnder toLowerCase c tx = true) →
        sumNumbers (contributions toLowerCase c rows) = .fin false k →
        getOwn (ratesFor toLowerCase service rows) c = none →
        getOwn entries c = some { eur := "0.00" }) := by
  refine ⟨_, calculateTotal_registered toLowerCase service s userId type filePath rows
    hreg hpath hfile, ?_, aggregate_nil_of_no_counted toLowerCase service rows, ?_⟩
  · intro c hc
    rw [mem_keys_aggregate]
    exact ⟨fun h => h.1, fun h => ⟨h, hc⟩⟩
  · intro c k hc hrow hfin hrate
    rw [getOwn_aggregate toLowerCase service rows c hc,
      (contributions_isEmpty toLowerCase c rows).mpr hrow,
      value_of_unresolved toLowerCase service rows c k hrate hfin]
    rfl


/-- The example of C6: the single row `xyz, 10` with no rate for `xyz` gives
`xyz` the value `0.00`. -/
theorem calculateTotal_keys_witness :
    (∃ entries,
      calculateTotal asciiLower failingService
        (uploaded .deposit [⟨some "xyz", some "10"⟩]) "42" .deposit =
          .resolved (.result entries) ∧
      (∀ c, c ≠ protoKey →
        (c ∈ ownKeys entries ↔
          ∃ tx ∈ [(⟨some "xyz", some "10"⟩ : Row)], addsUnder asciiLower c tx = true)) ∧
      ((∀ tx ∈ [(⟨some "xyz", some "10"⟩ : Row)], rowCounts asciiLower tx = false) →
        entries = []) ∧
      (∀ c k, isInherited c = false →
        (∃ tx ∈ [(⟨some "xyz", some "10"⟩ : Row)], addsUnder asciiLower c tx = true) →
        sumNumbers (contributions asciiLower c [⟨some "xyz", some "10"⟩]) = .fin false k →
        getOwn (ratesFor asciiLower failingService [⟨some "xyz", some "10"⟩]) c = none →
        getOwn entries c = some { eur := "0.00" })) ∧
    calculateTotal asciiLower failingService
        (uploaded .deposit [⟨some "xyz", some "10"⟩]) "42" .deposit =
      .resolved (.result [("xyz", ⟨"0.00"⟩)]) :=
  ⟨calculateTotal_keys asciiLower failingService
      (uploaded .deposit [⟨some "xyz", some "10"⟩]) "42" .deposit
      "user_files/deposit_42.csv" [⟨some "xyz", some "10"⟩] (by decide) (by decide)
      (by decide),
    by decide⟩

/-- C6 as stated fails. (1) The row `xyz, Infinity` passes the test of line
114, `xyz` has no rate, and its value is `NaN`, not `0.00`. (2) The row
`__proto__, 10` passes the test of line 114 and the result is empty: the
currency is omitted. -/
theorem calculateTotal_keys_counterexample :
    rowCounts asciiLower ⟨some "xyz", some "Infinity"⟩ = true ∧
    calculateTotal asciiLower failingService
        (uploaded .deposit [⟨some "xyz", some "Infinity"⟩]) "42" .deposit =
      .resolved (.result [("xyz", ⟨"NaN"⟩)]) ∧
    rowCounts asciiLower ⟨some "__proto__", some "10"⟩ = true ∧
    calculateTotal asciiLower failingService
        (uploaded .deposit [⟨some "__proto__", some "10"⟩]) "42" .deposit =
      .resolved (.result []) := by
  decide

/-! ## Failure of the rate service -/

theorem fetch_of_failure (toLowerCase : String → String) (service : RateService)
    (hfail : ∀ ids, service ids = none) (cryptoList : List String) :
    fetchCryptoRatesToEUR toLowerCase service cryptoList = [] := by
  unfold fetchCryptoRatesToEUR
  simp only [hfail]
  split <;> rfl

/-- C7, as amended. When every request to the external service fails,
`fetchCryptoRatesToEUR` returns the empty object for every list of symbols,
and `calculateTotal` on a registered, readable record set still resolves to a
result object, in which every currency that is not an inherited property
name, has a counted row and a finite total is present with the value `0.00`. -/
theorem fetch_failure_degrades (toLowerCase : String → String) (service : RateService)
    (hfail : ∀ ids, service ids = none)
    (s : State) (userId : String) (type : Kind) (filePath : String) (rows : List Row)
    (hreg : getFilePath s.userFiles userId type = some filePath) (hpath : filePath ≠ "")
    (hfile : loadCSV s.files filePath = some rows) :
    (∀ cryptoList, fetchCryptoRatesToEUR toLowerCase service cryptoList = []) ∧
    ∃ entries,
      calculateTotal toLowerCase service s userId type = .resolved (.result entries) ∧
      ∀ c k, isInherited c = false →
        (∃ tx ∈ rows, addsUnder toLowerCase c tx = true) →
        sumNumbers (contributions toLowerCase c rows) = .fin false k →
        getOwn entries c = some { eur := "0.00" } := by
  refine ⟨fetch_of_failure toLowerCase service hfail, _,
    calculateTotal_registered toLowerCase service s userId type filePath rows
      hreg hpath hfile, ?_⟩
  intro c k hc hrow hfin
  have hrate : getOwn (ratesFor toLowerCase service rows) c = none := by
    unfold ratesFor
    rw [fetch_of_failure toLowerCase service hfail]
    rfl
  rw [getOwn_aggregate toLowerCase service rows c hc,
    (contributions_isEmpty toLowerCase c rows).mpr hrow,
    value_of_unresolved toLowerCase service rows c k hrate hfin]
  rfl

/-- C7 at a concrete input: the service fails, the rows are `btc, 2` and
`eth, 0.5`, and both currencies are valued `0.00`. -/
theorem fetch_failure_degrades_witness :
    ((∀ cryptoList, fetchCryptoRatesToEUR asciiLower failingService cryptoList = []) ∧
     ∃ entries,
      calculateTotal asciiLower failingService
        (uploaded .deposit [⟨some "btc", some "2"⟩, ⟨some "eth", some "0.5"⟩])
        "42" .deposit = .resolved (.result entries) ∧
      ∀ c k, isInherited c = false →
        (∃ tx ∈ [(⟨some "btc", some "2"⟩ : Row), ⟨some "eth", some "0.5"⟩],
          addsUnder asciiLower c tx = true) →
        sumNumbers (contributions asciiLower c
          [⟨some "btc", some "2"⟩, ⟨some "eth", some "0.5"⟩]) = .fin false k →
        getOwn entries c = some { eur := "0.00" }) ∧
    calculateTotal asciiLower failingService
        (uploaded .deposit [⟨some "btc", some "2"⟩, ⟨some "eth", some "0.5"⟩])
        "42" .deposit =
      .resolved (.result [("btc", ⟨"0.00"⟩), ("eth", ⟨"0.00"⟩)]) :=
  ⟨fetch_failure_degrades asciiLower failingService (fun _ => rfl)
      (uploaded .deposit [⟨some "btc", some "2"⟩, ⟨some "eth", some "0.5"⟩]) "42" .deposit
      "user_files/deposit_42.csv" [⟨some "btc", some "2"⟩, ⟨some "eth", some "0.5"⟩]
      (by decide) (by decide) (by decide),
    by decide⟩

/-- C7 as stated fails in its last part. The service fails and the rate
provider returns the empty object. (1) The single row `btc, -Infinity` is
counted, its total is `Infinity`, and `btc` is valued `NaN`, not `0.00`.
(2) The single row `constructor, 10` gives `constructor` the value `NaN`. -/
theorem fetch_failure_counterexample :
    fetchCryptoRatesToEUR asciiLower failingService ["btc"] = [] ∧
    calculateTotal asciiLower failingService
        (uploaded .deposit [⟨some "btc", some "-Infinity"⟩]) "42" .deposit =
      .resolved (.result [("btc", ⟨"NaN"⟩)]) ∧
    calculateTotal asciiLower failingService
        (uploaded .deposit [⟨some "constructor", some "10"⟩]) "42" .deposit =
      .resolved (.result [("constructor", ⟨"NaN"⟩)]) := by
  decide

/-! ## Which rows are counted -/

/-- C9, as amended. A row is counted exactly when `parseFloat` of its amount
cell is not `NaN` and its currency cell is present with a non-empty lowercase
form.  Rows that are not counted can be deleted from the input without any
change to `totals`, to `uniqueCurrencies` or to the result.  Under a key `c`
that is not an inherited property name, `totals` holds nothing if no counted
row has the lowercased currency `c`, and otherwise the sum of
`Math.abs(parseFloat(amount))` over exactly those rows. -/
theorem counted_rows (toLowerCase : String → String) (rows : List Row) :
    (∀ tx, rowCounts toLowerCase tx = true ↔
      (parseFloat tx.amount).isNaN = false ∧
        ∃ s, tx.currency = some s ∧ toLowerCase s ≠ "") ∧
    accumulate toLowerCase (rows.filter (rowCounts toLowerCase)) =
      accumulate toLowerCase rows ∧
    (∀ service, aggregate toLowerCase service (rows.filter (rowCounts toLowerCase)) =
      aggregate toLowerCase service rows) ∧
    (∀ c, isInherited c = false →
      getOwn (accumulate toLowerCase rows).totals c =
        if ((rows.filter (addsUnder toLowerCase c)).map fun tx =>
              (parseFloat tx.amount).abs).isEmpty then none
        else some (.num (sumNumbers ((rows.filter (addsUnder toLowerCase c)).map fun tx =>
              (parseFloat tx.amount).abs)))) := by
  refine ⟨rowCounts_iff toLowerCase, accumulate_filter toLowerCase rows,
    fun service => aggregate_filter toLowerCase service rows, ?_⟩
  intro c hc
  rw [totals_closed_form, totalOf_regular _ _ hc]
  rfl

/-- C9 as stated fails. (1) The amount `12abc` is not a number and the amount
`Infinity` is not finite, yet both rows are counted: `parseFloat` reads the
prefix `12` of the first and `Infinity` of the second, and neither is `NaN`.
With bitcoin at 50000 EUR the rows give `btc` the values `600000.00` and
`Infinity`, where the result without them is empty. (2) The row
`__proto__, 10` has a finite amount and a non-empty currency and passes the
test of line 114, yet it adds nothing to `totals`. -/
theorem counted_rows_counterexample :
    rowCounts asciiLower ⟨some "btc", some "12abc"⟩ = true ∧
    calculateTotal asciiLower (bitcoinService "50000")
        (uploaded .deposit [⟨some "btc", some "12abc"⟩]) "42" .deposit =
      .resolved (.result [("btc", ⟨"600000.00"⟩)]) ∧
    rowCounts asciiLower ⟨some "btc", some "Infinity"⟩ = true ∧
    calculateTotal asciiLower (bitcoinService "50000")
        (uploaded .deposit [⟨some "btc", some "Infinity"⟩]) "42" .deposit =
      .resolved (.result [("btc", ⟨"Infinity"⟩)]) ∧
    calculateTotal asciiLower (bitcoinService "50000") (uploaded .deposit []) "42" .deposit =
      .resolved (.result []) ∧
    rowCounts asciiLower ⟨some "__proto__", some "10"⟩ = true ∧
    (accumulate asciiLower [⟨some "__proto__", some "10"⟩]).totals = [] := by
  decide

/-! ## Letter case of the currency symbol -/

theorem addRow_congr (toLowerCase : String → String) (acc : Acc) (r r' : Row)
    (h : sameUpToCase toLowerCase r r') :
    addRow toLowerCase acc r = addRow toLowerCase acc r' := by
  obtain ⟨ha, hc⟩ := h
  unfold addRow
  rw [ha]
  cases h1 : r.currency with
  | none =>
    cases h2 : r'.currency with
    | none => rfl
    | some s' => simp [h1, h2] at hc
  | some s =>
    cases h2 : r'.currency with
    | none => simp [h1, h2] at hc
    | some s' =>
      simp only [h1, h2, Option.map_some', Option.some.injEq] at hc
      simp only [hc]

theorem foldl_addRow_congr (toLowerCase : String → String) (rows rows' : List Row)
    (h : List.Forall₂ (sameUpToCase toLowerCase) rows rows') (acc : Acc) :
    rows.foldl (addRow toLowerCase) acc = rows'.foldl (addRow toLowerCase) acc := by
  induction h generalizing acc with
  | nil => rfl
  | cons hr _ ih =>
    simp only [List.foldl_cons]
    rw [addRow_congr toLowerCase acc _ _ hr]
    exact ih _

theorem aggregate_congr (toLowerCase : String → String) (service : RateService)
    (rows rows' : List Row) (h : List.Forall₂ (sameUpToCase toLowerCase) rows rows') :
    aggregate toLowerCase service rows = aggregate toLowerCase service rows' := by
  have hacc : accumulate toLowerCase rows = accumulate toLowerCase rows' :=
    foldl_addRow_congr toLowerCase rows rows' h _
  unfold aggregate
  rw [hacc]

theorem keys_aggregate_lowercase (toLowerCase : String → String) (service : RateService)
    (rows : List Row) (hidem : ∀ x, toLowerCase (toLowerCase x) = toLowerCase x) :
    ∀ k ∈ ownKeys (aggregate toLowerCase service rows), toLowerCase k = k := by
  intro k hk
  obtain ⟨⟨tx, _, htx⟩, _⟩ := (mem_keys_aggregate toLowerCase service rows k).mp hk
  unfold addsUnder at htx
  simp only [Bool.and_eq_true, decide_eq_true_eq] at htx
  cases hc : tx.currency with
  | none => simp [hc] at htx
  | some s =>
    have hs : toLowerCase s = k := by simpa [hc] using htx.2
    rw [← hs, hidem]

theorem toLower_idem (c : Char) : c.toLower.toLower = c.toLower := by
  by_cases h : c.toNat ≥ 65 ∧ c.toNat ≤ 90
  · have h1 : c.toLower = Char.ofNat (c.toNat + 32) := by
      simp only [Char.toLower, h, and_self, ↓reduceIte]
    rw [h1]
    obtain ⟨h65, h90⟩ := h
    generalize c.toNat = n at h65 h90
    interval_cases n <;> rfl
  · have h1 : c.toLower = c := by
      simp only [Char.toLower, h, ↓reduceIte]
    rw [h1, h1]

theorem asciiLower_idem (s : String) : asciiLower (asciiLower s) = asciiLower s := by
  simp [asciiLower, List.map_map, Function.comp_def, toLower_idem]

/-- C5. Let two record sets be registered and readable for the same user and
kind in two states, with rows that pairwise have the same amount cell and
currency cells of the same lowercase form (they differ at most in the letter
case of the currency).  Then `calculateTotal` resolves to the same result
object in both states, and every key `k` of that object is in lowercase form:
`toLowerCase k = k`.  (`toLowerCase` is idempotent, as the built-in is.) -/
theorem calculateTotal_case_insensitive (toLowerCase : String → String)
    (hidem : ∀ x, toLowerCase (toLowerCase x) = toLowerCase x)
    (service : RateService) (s s' : State) (userId : String) (type : Kind)
    (filePath filePath' : String) (rows rows' : List Row)
    (hreg : getFilePath s.userFiles userId type = some filePath) (hpath : filePath ≠ "")
    (hfile : loadCSV s.files filePath = some rows)
    (hreg' : getFilePath s'.userFiles userId type = some filePath') (hpath' : filePath' ≠ "")
    (hfile' : loadCSV s'.files filePath' = some rows')
    (hrows : List.Forall₂ (sameUpToCase toLowerCase) rows rows') :
    calculateTotal toLowerCase service s userId type =
      calculateTotal toLowerCase service s' userId type ∧
    ∃ entries,
      calculateTotal toLowerCase service s userId type = .resolved (.result entries) ∧
      ∀ k ∈ ownKeys entries, toLowerCase k = k := by
  have h1 := calculateTotal_registered toLowerCase service s userId type filePath rows
    hreg hpath hfile
  have h2 := calculateTotal_registered toLowerCase service s' userId type filePath' rows'
    hreg' hpath' hfile'
  refine ⟨?_, _, h1, keys_aggregate_lowercase toLowerCase service rows hidem⟩
  rw [h1, h2, aggregate_congr toLowerCase service rows rows' hrows]

/-- The example of C5: a file with the rows `btc, 1.5` and `BTC, -0.5` and a
file with the rows `BTC, 1.5` and `Btc, -0.5` give the same result, whose one
key is `btc`. -/
theorem calculateTotal_case_insensitive_witness :
    (calculateTotal asciiLower (bitcoinService "50000") (uploaded .deposit exampleRows)
        "42" .deposit =
      calculateTotal asciiLower (bitcoinService "50000")
        (uploaded .deposit [⟨some "BTC", some "1.5"⟩, ⟨some "Btc", some "-0.5"⟩])
        "42" .deposit ∧
     ∃ entries,
      calculateTotal asciiLower (bitcoinService "50000") (uploaded .deposit exampleRows)
        "42" .deposit = .resolved (.result entries) ∧
      ∀ k ∈ ownKeys entries, asciiLower k = k) ∧
    calculateTotal asciiLower (bitcoinService "50000")
        (uploaded .deposit [⟨some "BTC", some "1.5"⟩, ⟨some "Btc", some "-0.5"⟩])
        "42" .deposit =
      .resolved (.result [("btc", ⟨"100000.00"⟩)]) :=
  ⟨calculateTotal_case_insensitive asciiLower asciiLower_idem (bitcoinService "50000")
      (uploaded .deposit exampleRows)
      (uploaded .deposit [⟨some "BTC", some "1.5"⟩, ⟨some "Btc", some "-0.5"⟩])
      "42" .deposit "user_files/deposit_42.csv" "user_files/deposit_42.csv"
      exampleRows [⟨some "BTC", some "1.5"⟩, ⟨some "Btc", some "-0.5"⟩]
      (by decide) (by decide) (by decide) (by decide) (by decide) (by decide)
      (List.Forall₂.cons ⟨rfl, by decide⟩
        (List.Forall₂.cons ⟨rfl, by decide⟩ List.Forall₂.nil)),
    by decide⟩


/-! ## The rate provider -/

/-- Every entry of the object returned by `fetchCryptoRatesToEUR` is a symbol
of `idsMap` whose identifier has an entry in the response, with the `eur`
field of that entry. -/
theorem fetch_entries_from_response (toLowerCase : String → String) (service : RateService)
    (cryptoList : List String) (symbol : String) (v : Option JSNum)
    (h : (symbol, v) ∈ fetchCryptoRatesToEUR toLowerCase service cryptoList) :
    ∃ id data entry, (symbol, id) ∈ idsMap ∧
      service (requestIds toLowerCase cryptoList) = some data ∧
      getOwn data id = some entry ∧ v = entry.eur := by
  unfold fetchCryptoRatesToEUR at h
  simp only at h
  split at h
  · simp at h
  · cases hs : service (requestIds toLowerCase cryptoList) with
    | none => simp [hs] at h
    | some data =>
      simp only [hs, ratesOfResponse, List.mem_filterMap] at h
      obtain ⟨⟨sym, id⟩, hmem, hval⟩ := h
      cases he : getOwn data id with
      | none => simp [he] at hval
      | some entry =>
        simp only [he, Option.some.injEq, Prod.mk.injEq] at hval
        obtain ⟨rfl, rfl⟩ := hval
        exact ⟨id, data, entry, hmem, rfl, he, rfl⟩

/-- When no requested symbol has a truthy `idsMap[...]` read (none is a table
symbol or an inherited property name), no external call is made and the
result is empty. -/
theorem fetch_without_known_symbol (toLowerCase : String → String) (service : RateService)
    (cryptoList : List String)
    (h : ∀ symbol ∈ cryptoList, idLookup (toLowerCase symbol) = none) :
    callsService toLowerCase cryptoList = false ∧
      fetchCryptoRatesToEUR toLowerCase service cryptoList = [] := by
  have hf : (cryptoList.filterMap fun symbol => idLookup (toLowerCase symbol)) = [] := by
    rw [List.filterMap_eq_nil_iff]
    exact h
  have hids : requestIds toLowerCase cryptoList = "" := by
    unfold requestIds
    rw [hf]
    rfl
  constructor
  · simp [callsService, hids]
  · simp [fetchCryptoRatesToEUR, hids]

/-! ## The rounding of the number model -/

theorem bitLenAux_spec (l : Nat) : ∀ n, n < 2 ^ (2 ^ l) →
    n < 2 ^ bitLenAux l n ∧ (n ≠ 0 → 2 ^ (bitLenAux l n - 1) ≤ n) := by
  induction l with
  | zero =>
    intro n hn
    have h2 : n < 2 := by simpa using hn
    interval_cases n <;> simp [bitLenAux]
  | succ l ih =>
    intro n hn
    have hpos : 0 < 2 ^ (2 ^ l) := Nat.pos_pow_of_pos _ (by decide)
    have hsq : 2 ^ (2 ^ (l + 1)) = 2 ^ (2 ^ l) * 2 ^ (2 ^ l) := by
      rw [← pow_add, pow_succ, Nat.mul_two]
    unfold bitLenAux
    rw [Nat.one_shiftLeft, Nat.shiftRight_eq_div_pow]
    by_cases h0 : n / 2 ^ (2 ^ l) = 0
    · simp only [h0, ↓reduceIte]
      exact ih n ((Nat.div_eq_zero_iff hpos).mp h0)
    · simp only [h0, ↓reduceIte]
      have hm : n / 2 ^ (2 ^ l) < 2 ^ (2 ^ l) := by
        rw [Nat.div_lt_iff_lt_mul hpos, ← hsq]
        exact hn
      obtain ⟨h1, h2⟩ := ih _ hm
      have h2 := h2 h0
      set r := bitLenAux l (n / 2 ^ (2 ^ l)) with hr
      have hr1 : 1 ≤ r := by
        rcases Nat.eq_zero_or_pos r with h | h
        · rw [h] at h1
          simp at h1
          exact absurd h1 h0
        · exact h
      constructor
      · rw [pow_add, Nat.mul_comm]
        exact (Nat.div_lt_iff_lt_mul hpos).mp h1
      · intro _
        have hgen : ∀ a : Nat, a + r - 1 = (r - 1) + a := by intro a; omega
        rw [hgen, pow_add]
        exact (Nat.le_div_iff_mul_le hpos).mp h2

theorem roundHalfEven_nearest (num den : Nat) (h : 0 < den) :
    2 * (num - den * roundHalfEven num den) ≤ den ∧
    2 * (den * roundHalfEven num den - num) ≤ den := by
  have hdm := Nat.div_add_mod num den
  have hlt := Nat.mod_lt num h
  unfold roundHalfEven
  simp only
  generalize num / den = q at *
  generalize num % den = r at *
  have e1 : den * (q + 1) = den * q + den := by ring
  split
  · constructor <;> omega
  · split
    · rw [e1]; constructor <;> omega
    · split
      · constructor <;> omega
      · rw [e1]; constructor <;> omega

set_option exponentiation.threshold 5000 in
theorem bitLen_spec (n : Nat) (h : n < 2 ^ 2098) :
    n < 2 ^ bitLen n ∧ (n ≠ 0 → 2 ^ (bitLen n - 1) ≤ n) := by
  apply bitLenAux_spec 12 n
  have h1 : (2098 : Nat) ≤ 2 ^ 12 := by decide
  exact lt_of_lt_of_le h (Nat.pow_le_pow_right (by decide) h1)

theorem roundHalfEven_bounds (num den : Nat) :
    num / den ≤ roundHalfEven num den ∧ roundHalfEven num den ≤ num / den + 1 := by
  unfold roundHalfEven
  simp only
  split
  · omega
  · split
    · omega
    · split <;> omega

set_option exponentiation.threshold 5000 in
/-- The rounding of `roundMag`: the result is `m * 2^s` with a significand `m`
of at most 53 bits, of exactly 53 bits (or `2^53`) when the spacing `2^s`
exceeds one unit, and it lies within half a spacing of `num / den`. -/
theorem roundMag_spec (num den k : Nat) (hden : 0 < den) (h : roundMag num den = some k) :
    ∃ s m, k = m * 2 ^ s ∧ m ≤ 2 ^ 53 ∧ (s = 0 ∨ 2 ^ 52 ≤ m) ∧
      2 * (num - den * k) ≤ den * 2 ^ s ∧ 2 * (den * k - num) ≤ den * 2 ^ s := by
  unfold roundMag at h
  split at h
  · exact absurd h (by simp)
  · rename_i hlt
    simp only at h
    split at h
    · exact absurd h (by simp)
    · simp only [Option.some.injEq] at h
      rw [Nat.shiftLeft_eq, Nat.not_le] at hlt
      have hq : num / den < 2 ^ 2098 := by
        rw [Nat.div_lt_iff_lt_mul hden, Nat.mul_comm]
        exact hlt
      obtain ⟨hb1, hb2⟩ := bitLen_spec _ hq
      generalize hs : bitLen (num / den) - 53 = s at h
      generalize hb : bitLen (num / den) = b at hb1 hb2 hs
      rw [Nat.shiftLeft_eq, Nat.shiftLeft_eq] at h
      have hpos : 0 < 2 ^ s := Nat.pos_pow_of_pos _ (by decide)
      have hdpos : 0 < den * 2 ^ s := Nat.mul_pos hden hpos
      obtain ⟨hn1, hn2⟩ := roundHalfEven_nearest num (den * 2 ^ s) hdpos
      obtain ⟨hr1, hr2⟩ := roundHalfEven_bounds num (den * 2 ^ s)
      have hqq : num / (den * 2 ^ s) = num / den / 2 ^ s := by
        rw [Nat.div_div_eq_div_mul]
      refine ⟨s, roundHalfEven num (den * 2 ^ s), h.symm, ?_, ?_, ?_, ?_⟩
      · have hlt53 : num / den / 2 ^ s < 2 ^ 53 := by
          rw [Nat.div_lt_iff_lt_mul hpos, ← pow_add]
          exact lt_of_lt_of_le hb1 (Nat.pow_le_pow_right (by decide) (by omega))
        omega
      · by_cases hs0 : s = 0
        · exact Or.inl hs0
        · right
          have hb54 : b = s + 53 := by omega
          have hne : num / den ≠ 0 := by
            intro h0
            rw [h0] at hb
            have hz : bitLen 0 = 0 := by decide
            rw [hz] at hb
            omega
          have h52 : 2 ^ 52 ≤ num / den / 2 ^ s := by
            rw [Nat.le_div_iff_mul_le hpos, ← pow_add]
            have := hb2 hne
            rw [hb54] at this
            have e : s + 53 - 1 = 52 + s := by omega
            rw [e] at this
            exact this
          omega
      · rw [← h]
        have e : den * (roundHalfEven num (den * 2 ^ s) * 2 ^ s) =
            den * 2 ^ s * roundHalfEven num (den * 2 ^ s) := by ring
        rw [e]
        exact hn1
      · rw [← h]
        have e : den * (roundHalfEven num (den * 2 ^ s) * 2 ^ s) =
            den * 2 ^ s * roundHalfEven num (den * 2 ^ s) := by ring
        rw [e]
        exact hn2

/-! ## Conformance examples for the number model -/

set_option exponentiation.threshold 400 in
/-- Known values of JavaScript arithmetic, evaluated in the model:
`0.1 + 0.2` is `0.30000000000000004`, not `0.3`; `1.5 + 0.5` is `2`;
`1e308 + 1e308` is `Infinity`; `Infinity * 0` is `NaN`. -/
theorem number_examples :
    (parseFloatStr "0.1").add (parseFloatStr "0.2") = parseFloatStr "0.30000000000000004" ∧
    (parseFloatStr "0.1").add (parseFloatStr "0.2") ≠ parseFloatStr "0.3" ∧
    (parseFloatStr "1.5").add (parseFloatStr "0.5") = parseFloatStr "2" ∧
    (parseFloatStr "1e308").add (parseFloatStr "1e308") = .inf false ∧
    (JSNum.inf false).mul JSNum.zero = .nan ∧
    parseFloatStr "9007199254740993" = parseFloatStr "9007199254740992" := by
  decide

/-- Known values of `parseFloat`: a numeric prefix is read, `Infinity` is a
literal, and a string without numeric prefix, or a missing cell, gives `NaN`. -/
theorem parseFloat_examples :
    parseFloatStr "12abc" = parseFloatStr "12" ∧
    parseFloatStr "  -.5e1x" = parseFloatStr "-5" ∧
    parseFloatStr "Infinity" = .inf false ∧
    parseFloatStr "1e999" = .inf false ∧
    parseFloatStr "abc" = .nan ∧
    parseFloatStr "" = .nan ∧
    parseFloat none = .nan := by
  decide

/-- Known values of `toFixed(2)`: rounding is half-up on the exact binary
value (`1.005` is stored slightly below and prints `1.00`; `0.125` is exact
and prints `0.13`), and from `10^21` on the exponent form is printed. -/
theorem toFixed2_examples :
    (parseFloatStr "1.005").toFixed2 = "1.00" ∧
    (parseFloatStr "8.345").toFixed2 = "8.35" ∧
    (parseFloatStr "0.125").toFixed2 = "0.13" ∧
    (parseFloatStr "-0.125").toFixed2 = "-0.13" ∧
    (parseFloatStr "100000").toFixed2 = "100000.00" ∧
    (parseFloatStr "999999999999999900000").toFixed2 = "999999999999999868928.00" ∧
    (parseFloatStr "1e21").toFixed2 = "1e+21" ∧
    (parseFloatStr "1e23").toFixed2 = "1e+23" ∧
    (parseFloatStr "123456789012345678901234567890").toFixed2 = "1.2345678901234568e+29" := by
  decide


/-! ## The summary of the `total` command -/

theorem mem_of_mem_enumerationOrder {α : Type} (o : List (String × α)) (p : String × α)
    (h : p ∈ enumerationOrder o) : p ∈ o := by
  unfold enumerationOrder at h
  rcases List.mem_append.mp h with h1 | h1
  · exact (List.mem_filter.mp (((List.perm_insertionSort _ _).mem_iff).mp h1)).1
  · exact (List.mem_filter.mp h1).1

/-- The loop of lines 302-308 adds, in enumeration order, the number
`parseFloat(entry.eur || 0)` of every entry. -/
theorem sumEUR_result (entries : List (String × EurEntry)) (h : (ownKeys entries).Nodup) :
    sumEUR (.result entries) =
      sumNumbers ((enumerationOrder entries).map fun p => parseFloatOrZero (some p.2.eur)) := by
  unfold sumEUR sumNumbers
  simp only [Aggregate.keys, ownKeys, List.foldl_map, Aggregate.eurOf]
  apply List.foldl_ext
  intro total p hp
  rw [getOwn_of_mem entries h p (mem_of_mem_enumerationOrder entries p hp)]
  rfl

/-- A non-zero magnitude does not round to zero. -/
theorem roundMag_pos (n k : Nat) (hn : 0 < n) (h : roundMag n 1 = some k) : 0 < k := by
  obtain ⟨s, m, hk, _, hs, h1, _⟩ := roundMag_spec n 1 k (by decide) h
  rcases Nat.eq_zero_or_pos k with h0 | h0
  · exfalso
    have hpos : 0 < 2 ^ s := Nat.pos_pow_of_pos _ (by decide)
    have hm : m = 0 := by
      rw [h0] at hk
      rcases Nat.mul_eq_zero.mp hk.symm with h2 | h2
      · exact h2
      · omega
    have hs0 : s = 0 := by
      rcases hs with h2 | h2
      · exact h2
      · rw [hm] at h2
        exact absurd h2 (by decide)
    rw [h0, hs0] at h1
    simp at h1
    omega
  · exact h0

theorem ofMag_false_geZero (n d : Nat) : (JSNum.ofMag false n d).geZero = true := by
  unfold JSNum.ofMag
  cases roundMag n d <;> simp [JSNum.geZero]

theorem ofMag_true_geZero (n : Nat) (hn : 0 < n) : (JSNum.ofMag true n 1).geZero = false := by
  unfold JSNum.ofMag
  cases h : roundMag n 1 with
  | none => simp [JSNum.geZero]
  | some k =>
    have hk := roundMag_pos n k hn h
    have hk0 : k ≠ 0 := by omega
    simp [JSNum.geZero, hk0]

theorem ofMag_true_zero : JSNum.ofMag true 0 1 = JSNum.fin true 0 := by decide

theorem unitsPerOne_pos : (0 : ℚ) < (unitsPerOne : ℚ) := by
  have h : 0 < unitsPerOne := by decide
  exact_mod_cast h

theorem exactValue_le_iff (s t : Bool) (a b : Nat) :
    exactValue t b ≤ exactValue s a ↔
      (if t then -(b : ℚ) else (b : ℚ)) ≤ (if s then -(a : ℚ) else (a : ℚ)) := by
  unfold exactValue
  exact div_le_div_iff_of_pos_right unitsPerOne_pos

/-- The test `x - y >= 0` on finite doubles decides the exact order of their
values: the rounded difference has the sign of the exact one. -/
theorem geZero_sub_iff (s t : Bool) (a b : Nat) :
    ((JSNum.fin s a).sub (JSNum.fin t b)).geZero = true ↔
      exactValue t b ≤ exactValue s a := by
  rw [exactValue_le_iff]
  have ha : (0 : ℚ) ≤ (a : ℚ) := Nat.cast_nonneg a
  have hb : (0 : ℚ) ≤ (b : ℚ) := Nat.cast_nonneg b
  cases s <;> cases t
  · -- both non-negative
    have hsub : (JSNum.fin false a).sub (JSNum.fin false b) =
        if a = b then JSNum.fin false 0
        else if b < a then JSNum.ofMag false (a - b) 1 else JSNum.ofMag true (b - a) 1 := by
      simp [JSNum.sub, JSNum.neg, JSNum.add]
    rw [hsub]
    simp only [Bool.false_eq_true, ↓reduceIte, Nat.cast_le]
    by_cases hab : a = b
    · simp [hab, JSNum.geZero]
    · by_cases hlt : b < a
      · simp only [hab, hlt, ↓reduceIte, ofMag_false_geZero, true_iff]
        omega
      · simp only [hab, hlt, ↓reduceIte, ofMag_true_geZero (b - a) (by omega)]
        constructor
        · intro h; exact absurd h (by decide)
        · intro h; omega
  · -- minuend non-negative, subtrahend non-positive
    have hsub : (JSNum.fin false a).sub (JSNum.fin true b) = JSNum.ofMag false (a + b) 1 := by
      simp [JSNum.sub, JSNum.neg, JSNum.add]
    rw [hsub, ofMag_false_geZero]
    simp only [Bool.false_eq_true, ↓reduceIte, true_iff]
    linarith
  · -- minuend non-positive, subtrahend non-negative
    have hsub : (JSNum.fin true a).sub (JSNum.fin false b) = JSNum.ofMag true (a + b) 1 := by
      simp [JSNum.sub, JSNum.neg, JSNum.add]
    rw [hsub]
    simp only [Bool.false_eq_true, ↓reduceIte]
    by_cases h0 : a + b = 0
    · have ha0 : a = 0 := by omega
      have hb0 : b = 0 := by omega
      subst ha0; subst hb0
      rw [ofMag_true_zero]
      simp [JSNum.geZero]
    · rw [ofMag_true_geZero (a + b) (by omega)]
      constructor
      · intro h; exact absurd h (by decide)
      · intro h
        exfalso
        have h1 : (a : ℚ) = 0 := by linarith
        have h2 : (b : ℚ) = 0 := by linarith
        have h3 : a = 0 := by exact_mod_cast h1
        have h4 : b = 0 := by exact_mod_cast h2
        omega
  · -- both non-positive
    have hsub : (JSNum.fin true a).sub (JSNum.fin true b) =
        if a = b then JSNum.fin false 0
        else if b < a then JSNum.ofMag true (a - b) 1 else JSNum.ofMag false (b - a) 1 := by
      simp [JSNum.sub, JSNum.neg, JSNum.add]
    rw [hsub]
    simp only [↓reduceIte, neg_le_neg_iff, Nat.cast_le]
    by_cases hab : a = b
    · simp [hab, JSNum.geZero]
    · by_cases hlt : b < a
      · simp only [hab, hlt, ↓reduceIte, ofMag_true_geZero (a - b) (by omega)]
        constructor
        · intro h; exact absurd h (by decide)
        · intro h; omega
      · simp only [hab, hlt, ↓reduceIte, ofMag_false_geZero, true_iff]
        omega

theorem geZero_sub_nan (x y : JSNum) (h : x = .nan ∨ y = .nan) :
    (x.sub y).geZero = false := by
  rcases h with h | h
  · subst h
    cases y <;> rfl
  · subst h
    cases x <;> rfl

/-- The sum of two non-negative finite doubles is their exact sum rounded to
a significand of 53 bits: it lies within half a spacing of the exact sum. -/
theorem add_fin_spec (a b k : Nat) (h : (JSNum.fin false a).add (JSNum.fin false b) = .fin false k) :
    ∃ s m, k = m * 2 ^ s ∧ m ≤ 2 ^ 53 ∧ (s = 0 ∨ 2 ^ 52 ≤ m) ∧
      2 * ((a + b) - k) ≤ 2 ^ s ∧ 2 * (k - (a + b)) ≤ 2 ^ s := by
  have hadd : (JSNum.fin false a).add (JSNum.fin false b) = JSNum.ofMag false (a + b) 1 := by
    simp [JSNum.add]
  rw [hadd] at h
  unfold JSNum.ofMag at h
  cases hr : roundMag (a + b) 1 with
  | none => simp [hr] at h
  | some k' =>
    simp only [hr, JSNum.fin.injEq, true_and] at h
    subst h
    obtain ⟨s, m, h1, h2, h3, h4, h5⟩ := roundMag_spec (a + b) 1 k' (by decide) hr
    refine ⟨s, m, h1, h2, h3, ?_, ?_⟩
    · simpa using h4
    · simpa using h5


/-- C2, as amended. For result objects `ds` (deposits) and `ws` (withdrawals)
that hold no property `error`, the `total` command computes a summary.  Its
`totalDepositEUR` is the sum, in IEEE double arithmetic and in enumeration
order, of the numbers `parseFloat(entry.eur || 0)` of `ds`; its
`totalWithdrawalEUR` is that sum for `ws`; its `profitRaw` is their double
difference; its status is `Profit` exactly when `profitRaw >= 0` holds and
`Loss` otherwise.  When both totals are finite, the status is `Profit`
exactly when the exact value of the double `totalWithdrawalEUR` is at least
the exact value of the double `totalDepositEUR`; when a total is `NaN` the
status is `Loss`. -/
theorem totalCommand_summary (ds ws : List (String × EurEntry))
    (hd : (ownKeys ds).Nodup) (hw : (ownKeys ws).Nodup)
    (hde : (Aggregate.result ds).errorField = none)
    (hwe : (Aggregate.result ws).errorField = none) :
    ∃ sm : Summary, totalCommand (.result ds) (.result ws) = .summary sm ∧
      sm.totalDepositEUR =
        sumNumbers ((enumerationOrder ds).map fun p => parseFloatOrZero (some p.2.eur)) ∧
      sm.totalWithdrawalEUR =
        sumNumbers ((enumerationOrder ws).map fun p => parseFloatOrZero (some p.2.eur)) ∧
      sm.profitRaw = sm.totalWithdrawalEUR.sub sm.totalDepositEUR ∧
      (sm.profitStatus = "Profit" ↔ sm.profitRaw.geZero = true) ∧
      (sm.profitStatus = "Loss" ↔ sm.profitRaw.geZero = false) ∧
      (∀ s a t b, sm.totalWithdrawalEUR = .fin s a → sm.totalDepositEUR = .fin t b →
        (sm.profitStatus = "Profit" ↔ exactValue t b ≤ exactValue s a)) ∧
      (sm.totalWithdrawalEUR = .nan ∨ sm.totalDepositEUR = .nan →
        sm.profitStatus = "Loss") := by
  have hP : ∀ x : JSNum, ((if x.geZero then "Profit" else "Loss") = "Profit" ↔
      x.geZero = true) := by
    intro x; cases x.geZero <;> simp
  have hL : ∀ x : JSNum, ((if x.geZero then "Profit" else "Loss") = "Loss" ↔
      x.geZero = false) := by
    intro x; cases x.geZero <;> simp
  refine ⟨{ totalDepositEUR := sumEUR (.result ds),
            totalWithdrawalEUR := sumEUR (.result ws),
            profitRaw := (sumEUR (.result ws)).sub (sumEUR (.result ds)),
            profitStatus :=
              if ((sumEUR (.result ws)).sub (sumEUR (.result ds))).geZero then "Profit"
              else "Loss" },
    ?_, sumEUR_result ds hd, sumEUR_result ws hw, rfl, hP _, hL _, ?_, ?_⟩
  · simp [totalCommand, hde, hwe]
  · intro s a t b hW hD
    show ((if ((sumEUR (.result ws)).sub (sumEUR (.result ds))).geZero then "Profit"
      else "Loss") = "Profit" ↔ _)
    have hW' : sumEUR (.result ws) = .fin s a := hW
    have hD' : sumEUR (.result ds) = .fin t b := hD
    rw [hP, hW', hD']
    exact geZero_sub_iff s t a b
  · intro h
    show (if ((sumEUR (.result ws)).sub (sumEUR (.result ds))).geZero then "Profit"
      else "Loss") = "Loss"
    rw [hL]
    exact geZero_sub_nan _ _ h

/-- The example of C2: totals `1000.00` and `1200.00` give the difference
`200.00` and the status `Profit`. -/
theorem totalCommand_summary_witness :
    (∃ sm : Summary,
      totalCommand (.result [("btc", ⟨"1000.00"⟩)]) (.result [("btc", ⟨"1200.00"⟩)]) =
        .summary sm ∧
      sm.totalDepositEUR =
        sumNumbers ((enumerationOrder [("btc", (⟨"1000.00"⟩ : EurEntry))]).map fun p =>
          parseFloatOrZero (some p.2.eur)) ∧
      sm.totalWithdrawalEUR =
        sumNumbers ((enumerationOrder [("btc", (⟨"1200.00"⟩ : EurEntry))]).map fun p =>
          parseFloatOrZero (some p.2.eur)) ∧
      sm.profitRaw = sm.totalWithdrawalEUR.sub sm.totalDepositEUR ∧
      (sm.profitStatus = "Profit" ↔ sm.profitRaw.geZero = true) ∧
      (sm.profitStatus = "Loss" ↔ sm.profitRaw.geZero = false) ∧
      (∀ s a t b, sm.totalWithdrawalEUR = .fin s a → sm.totalDepositEUR = .fin t b →
        (sm.profitStatus = "Profit" ↔ exactValue t b ≤ exactValue s a)) ∧
      (sm.totalWithdrawalEUR = .nan ∨ sm.totalDepositEUR = .nan →
        sm.profitStatus = "Loss")) ∧
    totalCommand (.result [("btc", ⟨"1000.00"⟩)]) (.result [("btc", ⟨"1200.00"⟩)]) =
      .summary
        { totalDepositEUR := parseFloatStr "1000"
          totalWithdrawalEUR := parseFloatStr "1200"
          profitRaw := parseFloatStr "200"
          profitStatus := "Profit" } ∧
    (parseFloatStr "1000").toFixed2 = "1000.00" ∧
    (parseFloatStr "1200").toFixed2 = "1200.00" ∧
    (parseFloatStr "200").toFixed2 = "200.00" :=
  ⟨totalCommand_summary [("btc", ⟨"1000.00"⟩)] [("btc", ⟨"1200.00"⟩)]
      (by decide) (by decide) (by decide) (by decide),
    by decide, by decide, by decide, by decide⟩

/-- C2 as stated fails. (1) Deposits `0.10` and `0.20` against a withdrawal
`0.30`: as decimal numbers both totals are 30 hundredths, the difference is
zero and the status would be `Profit`; the code adds doubles, obtains
`0.30000000000000004` for the deposits, a negative difference, and the status
`Loss`, while both totals print as `0.30`. (2) A deposit result object that
holds the currency `error` is no error object, yet no summary is computed for
it: the command replies through the test of line 291. -/
theorem totalCommand_summary_counterexample :
    totalCommand (.result [("btc", ⟨"0.10"⟩), ("eth", ⟨"0.20"⟩)])
        (.result [("btc", ⟨"0.30"⟩)]) =
      .summary
        { totalDepositEUR := parseFloatStr "0.30000000000000004"
          totalWithdrawalEUR := parseFloatStr "0.3"
          profitRaw := parseFloatStr "-5.551115123125783e-17"
          profitStatus := "Loss" } ∧
    exactTotalCents [("btc", ⟨"0.10"⟩), ("eth", ⟨"0.20"⟩)] = some 30 ∧
    exactTotalCents [("btc", ⟨"0.30"⟩)] = some 30 ∧
    (parseFloatStr "0.30000000000000004").toFixed2 = "0.30" ∧
    (parseFloatStr "0.3").toFixed2 = "0.30" ∧
    totalCommand (.result [("error", ⟨"5.00"⟩)]) (.result [("btc", ⟨"7.00"⟩)]) =
      .noRecords (.entry ⟨"5.00"⟩) := by
  decide

/-- The enumeration order at work: a result object created with the keys
`btc`, `7`, `eth`, `3` is visited in the order `3`, `7`, `btc`, `eth`. -/
theorem enumerationOrder_example :
    Aggregate.keys
        (.result [("btc", ⟨"1.00"⟩), ("7", ⟨"2.00"⟩), ("eth", ⟨"3.00"⟩), ("3", ⟨"4.00"⟩)]) =
      ["3", "7", "btc", "eth"] ∧
    arrayIndex "007" = none ∧ arrayIndex "4294967295" = none ∧
    arrayIndex "4294967294" = some 4294967294 := by
  decide

end StakeStats
